import Mathlib

/-!
# Verification of the Gomoku alpha-beta AI engine

A shallow embedding of the move-selection engine of the `kigster/gomoku`
repository (class `AlphaBetaGomokuAI`): board model, threat classifier,
positional evaluator, immediate-threat detection, move generation,
alpha-beta search with backtracking board mutation (modelled by threading
the board through every call), and iterative deepening driven by an
explicit wall-clock oracle.

Scores are JavaScript numbers that take the values `-Infinity` / `Infinity`
as initial accumulators, so they are modelled by `XQ`, rationals extended
with two infinities.  Board mutation (`board[r][c] = p` followed by the
undo `board[r][c] = EMPTY`) is modelled by functional update plus explicit
threading of the board value through the search, so that the frame
property "the board is identical before and after the call" is a real
statement about the embedding.
-/

/-- Extended rationals: the score domain of the search
(JS numbers including `-Infinity` and `Infinity`). -/
inductive XQ where
  | negInf : XQ
  | fin : ℚ → XQ
  | posInf : XQ
  deriving DecidableEq, Repr

namespace XQ

/-- `a <= b` on JS numbers with infinities. -/
def ble : XQ → XQ → Bool
  | negInf, _ => true
  | _, posInf => true
  | fin a, fin b => a ≤ b
  | fin _, negInf => false
  | posInf, fin _ => false
  | posInf, negInf => false

/-- `a < b` on JS numbers with infinities. -/
def blt (a b : XQ) : Bool := !(ble b a)

/-- `Math.max`. -/
def qmax (a b : XQ) : XQ := if ble a b then b else a

/-- `Math.min`. -/
def qmin (a b : XQ) : XQ := if ble b a then b else a

end XQ

/-- `CellType` enum: internal cell representation. -/
inductive CellType where
  | EMPTY : CellType
  | BLACK : CellType
  | WHITE : CellType
  | OUT_OF_BOUNDS : CellType
  deriving DecidableEq, Repr

/-- External `Player` type: `"black" | "white" | null`. -/
inductive ExtPlayer where
  | black : ExtPlayer
  | white : ExtPlayer
  | null : ExtPlayer
  deriving DecidableEq, Repr

/-- `ThreatType` enum from competitive Gomoku analysis. -/
inductive ThreatType where
  | THREAT_NOTHING
  | THREAT_FIVE
  | THREAT_STRAIGHT_FOUR
  | THREAT_THREE
  | THREAT_FOUR
  | THREAT_FOUR_BROKEN
  | THREAT_THREE_BROKEN
  | THREAT_TWO
  | THREAT_NEAR_ENEMY
  | THREAT_THREE_AND_FOUR
  | THREAT_THREE_AND_THREE
  | THREAT_THREE_AND_THREE_BROKEN
  deriving DecidableEq, Repr

/-- A potential move with its evaluation (`score` is a JS number). -/
structure Move where
  row : Nat
  col : Nat
  score : XQ
  deriving DecidableEq, Repr

/-- Result of alpha-beta search at a given depth. -/
structure EvaluationResult where
  score : XQ
  bestMove : Option Move
  deriving DecidableEq, Repr

/-- The internal board: a total assignment of cells to 2-D coordinates.
Only coordinates below `BOARD_SIZE` are ever consulted. -/
def Board : Type := Nat → Nat → CellType

/-- The external board handed to `findBestMove`. -/
def ExtBoard : Type := Nat → Nat → ExtPlayer

/-- `BOARD_SIZE = 19`. -/
def BOARD_SIZE : Nat := 19

/-- `SEARCH_RADIUS = 4`. -/
def SEARCH_RADIUS : Nat := 4

/-- `NEED_TO_WIN = 5`. -/
def NEED_TO_WIN : Nat := 5

/-- AI difficulty levels. -/
inductive Difficulty where
  | easy
  | medium
  | hard
  deriving DecidableEq, Repr

/-- Engine configuration fixed by the constructor. -/
structure AIConfig where
  difficulty : Difficulty
  maxDepth : Nat
  aiPlayer : CellType
  humanPlayer : CellType
  deriving DecidableEq, Repr

/-- The `AlphaBetaGomokuAI` constructor: difficulty selects the search
depth, the colour selects which `CellType` the AI controls. -/
def mkAI (difficulty : Difficulty) (aiColor : ExtPlayer) : AIConfig :=
  { difficulty := difficulty
    maxDepth := match difficulty with
      | .easy => 2
      | .medium => 4
      | .hard => 5
    aiPlayer := if aiColor = .white then CellType.WHITE else CellType.BLACK
    humanPlayer := if aiColor = .white then CellType.BLACK else CellType.WHITE }

/-- `convertToInternalBoard`. -/
def convertToInternalBoard (b : ExtBoard) : Board := fun r c =>
  match b r c with
  | .black => CellType.BLACK
  | .white => CellType.WHITE
  | .null => CellType.EMPTY

/-- Single-cell assignment `board[r][c] = v`. -/
def setCell (b : Board) (r c : Nat) (v : CellType) : Board := fun r2 c2 =>
  if r2 = r ∧ c2 = c then v else b r2 c2

/-- Bounds test `r >= 0 && r < BOARD_SIZE && c >= 0 && c < BOARD_SIZE`
on signed coordinates. -/
def inB (r c : Int) : Bool :=
  0 ≤ r && r < (BOARD_SIZE : Int) && 0 ≤ c && c < (BOARD_SIZE : Int)

/-- Board access at signed coordinates (used only under `inB`). -/
def getI (b : Board) (r c : Int) : CellType := b r.toNat c.toNat

/-- All board coordinates in row-major order, as produced by
`for i ... for j ...` loops over the 19×19 grid. -/
def pairs19 : List (Nat × Nat) :=
  (List.range BOARD_SIZE).flatMap fun i => (List.range BOARD_SIZE).map fun j => (i, j)

/-- The four axis directions `[0,1], [1,0], [1,1], [1,-1]`. -/
def dirList : List (Int × Int) := [(0, 1), (1, 0), (1, 1), (1, -1)]

/-- One directional `while` walk: starting at `(r,c)` and stepping by
`(dr,dc)`, count contiguous stones of `player`, and report whether the
cell just past the run is an in-bounds `EMPTY` (an open end).  The walks
in the source always terminate within the 19-wide board, so fuel 20 is
never exhausted. -/
def walkDir (b : Board) (player : CellType) :
    Int → Int → Int → Int → Nat → Nat × Bool
  | _, _, _, _, 0 => (0, false)
  | r, c, dr, dc, fuel + 1 =>
      if inB r c then
        if getI b r c = player then
          let rest := walkDir b player (r + dr) (c + dc) dr dc fuel
          (rest.1 + 1, rest.2)
        else (0, getI b r c = CellType.EMPTY)
      else (0, false)

/-- Total contiguous run through `(row,col)` along direction `(dr,dc)`
(counting the stone at `(row,col)` itself), on board `b`. -/
def dirRunCount (b : Board) (player : CellType) (row col : Nat) (dr dc : Int) : Nat :=
  1 + (walkDir b player ((row : Int) + dr) ((col : Int) + dc) dr dc 20).1
    + (walkDir b player ((row : Int) - dr) ((col : Int) - dc) (-dr) (-dc) 20).1

/-- Open end past the positive-direction run. -/
def dirOpenPos (b : Board) (player : CellType) (row col : Nat) (dr dc : Int) : Bool :=
  (walkDir b player ((row : Int) + dr) ((col : Int) + dc) dr dc 20).2

/-- Open end past the negative-direction run. -/
def dirOpenNeg (b : Board) (player : CellType) (row col : Nat) (dr dc : Int) : Bool :=
  (walkDir b player ((row : Int) - dr) ((col : Int) - dc) (-dr) (-dc) 20).2

/-- `checkWinAt`: does the stone at `(row,col)` belong to a line of
`NEED_TO_WIN` or more along some axis? -/
def checkWinAt (b : Board) (player : CellType) (row col : Nat) : Bool :=
  dirList.any fun d => NEED_TO_WIN ≤ dirRunCount b player row col d.1 d.2

/-- `checkCriticalFourThreat`: temporarily place the stone, then look for
a contiguous run of at least 4 (including the placed stone) with an open
end along some axis.  The place/undo pair is pure here. -/
def checkCriticalFourThreat (b : Board) (player : CellType) (row col : Nat) : Bool :=
  let placed := setCell b row col player
  dirList.any fun d =>
    4 ≤ dirRunCount placed player row col d.1 d.2 &&
      (dirOpenNeg placed player row col d.1 d.2 || dirOpenPos placed player row col d.1 d.2)

/-- `checkForWin`: scan every occupied cell and every axis for a line of
five or more; return the winner's colour. -/
def checkForWin (b : Board) : Option CellType :=
  pairs19.findSome? fun ij =>
    let cell := b ij.1 ij.2
    if cell = CellType.EMPTY then none
    else if dirList.any fun d => 5 ≤ dirRunCount b cell ij.1 ij.2 d.1 d.2 then some cell
    else none

/-- `isBoardFull`. -/
def isBoardFull (b : Board) : Bool :=
  pairs19.all fun ij => !(b ij.1 ij.2 = CellType.EMPTY)

/-- `isBoardEmpty`. -/
def isBoardEmpty (b : Board) : Bool :=
  pairs19.all fun ij => b ij.1 ij.2 = CellType.EMPTY

/-- `isGameOver`: a win exists anywhere or the board is full. -/
def isGameOver (b : Board) : Bool :=
  (checkForWin b).isSome || isBoardFull b

/-- `hasNeighbor`: some in-bounds 8-neighbour of `(row,col)` is occupied. -/
def hasNeighbor (b : Board) (row col : Nat) : Bool :=
  ([-1, 0, 1] : List Int).any fun dr =>
    ([-1, 0, 1] : List Int).any fun dc =>
      if dr = 0 ∧ dc = 0 then false
      else
        let nr := (row : Int) + dr
        let nc := (col : Int) + dc
        inB nr nc && !(getI b nr nc = CellType.EMPTY)

/-- The four extraction directions of `extractRow`. -/
inductive ExtractDir where
  | horizontal
  | vertical
  | diagonal1
  | diagonal2
  deriving DecidableEq, Repr

/-- `extractRow`: the window of length `2·SEARCH_RADIUS+1` centred on
`(x,y)` along one axis.  Index `SEARCH_RADIUS + k` holds the cell at
offset `k` when it lies inside the board, `OUT_OF_BOUNDS` otherwise; the
centre index is never written by the source loops and keeps the
`OUT_OF_BOUNDS` fill. -/
def extractRow (b : Board) (x y : Nat) (dir : ExtractDir) : List CellType :=
  (List.range (2 * SEARCH_RADIUS + 1)).map fun idx =>
    let k : Int := (idx : Int) - (SEARCH_RADIUS : Int)
    if k = 0 then CellType.OUT_OF_BOUNDS
    else
      match dir with
      | .horizontal =>
          if inB ((x : Int) + k) y then getI b ((x : Int) + k) y
          else CellType.OUT_OF_BOUNDS
      | .vertical =>
          if inB x ((y : Int) + k) then getI b x ((y : Int) + k)
          else CellType.OUT_OF_BOUNDS
      | .diagonal1 =>
          if inB ((x : Int) + k) ((y : Int) + k) then getI b ((x : Int) + k) ((y : Int) + k)
          else CellType.OUT_OF_BOUNDS
      | .diagonal2 =>
          if inB ((x : Int) + k) ((y : Int) - k) then getI b ((x : Int) + k) ((y : Int) - k)
          else CellType.OUT_OF_BOUNDS

/-- Accumulated counters of one side of the classifier walk. -/
structure SideStats where
  stones : Nat
  contig : Nat
  holes : Nat
  enemy : Nat
  deriving DecidableEq, Repr

/-- One side of the `calculateThreatInOneDimension` walk, with the
mutable counters (`playerSquareCount` contribution, contiguous
contribution, hole count for this side) passed as accumulators and
`lastSq` tracking the previous square for gap detection.  Stops on
`OUT_OF_BOUNDS`, a second consecutive hole, or an enemy stone (counted). -/
def walkSide (player : CellType) :
    List CellType → CellType → Nat → Nat → Nat → SideStats
  | [], _, stones, contig, holes => ⟨stones, contig, holes, 0⟩
  | cell :: rest, lastSq, stones, contig, holes =>
      if cell = CellType.OUT_OF_BOUNDS then ⟨stones, contig, holes, 0⟩
      else if cell = player then
        walkSide player rest cell (stones + 1)
          (if holes = 0 then contig + 1 else contig) holes
      else if cell = CellType.EMPTY then
        if lastSq = CellType.EMPTY then ⟨stones, contig, holes, 0⟩
        else walkSide player rest cell stones contig (holes + 1)
      else ⟨stones, contig, holes, 1⟩

/-- `calculateThreatInOneDimension`: classify the window `row` for
`player`. -/
def calculateThreatInOneDimension (row : List CellType) (player : CellType) :
    ThreatType :=
  let right := walkSide player (row.drop (SEARCH_RADIUS + 1)) player 0 0 0
  let left := walkSide player ((row.take SEARCH_RADIUS).reverse) player 0 0 0
  let playerSquareCount := 1 + right.stones + left.stones
  let playerContiguousSquareCount := 1 + right.contig + left.contig
  let rightHoleCount := right.holes
  let leftHoleCount := left.holes
  let enemyCount := right.enemy + left.enemy
  let holes := leftHoleCount + rightHoleCount
  let total := holes + playerSquareCount
  if NEED_TO_WIN ≤ playerContiguousSquareCount then ThreatType.THREAT_FIVE
  else if playerContiguousSquareCount = 4 ∧ 0 < rightHoleCount ∧ 0 < leftHoleCount then
    ThreatType.THREAT_STRAIGHT_FOUR
  else if playerContiguousSquareCount = 4 ∧ (0 < rightHoleCount ∨ 0 < leftHoleCount) then
    ThreatType.THREAT_FOUR
  else if playerContiguousSquareCount = 3 ∧ 0 < rightHoleCount ∧ 0 < leftHoleCount then
    ThreatType.THREAT_THREE
  else if 4 ≤ playerSquareCount ∧ (0 < rightHoleCount ∨ 0 < leftHoleCount) ∧ 5 ≤ total then
    ThreatType.THREAT_FOUR_BROKEN
  else if 3 ≤ playerSquareCount ∧ (0 < rightHoleCount ∨ 0 < leftHoleCount) ∧ 5 ≤ total then
    ThreatType.THREAT_THREE_BROKEN
  else if 2 ≤ playerContiguousSquareCount ∧ (0 < rightHoleCount ∨ 0 < leftHoleCount) ∧ 4 ≤ total then
    ThreatType.THREAT_TWO
  else if 1 ≤ playerContiguousSquareCount ∧ (rightHoleCount = 0 ∨ leftHoleCount = 0) ∧ 0 < enemyCount then
    ThreatType.THREAT_NEAR_ENEMY
  else ThreatType.THREAT_NOTHING

/-- The `threatCost` scoring table. -/
def threatCost : ThreatType → ℤ
  | .THREAT_NOTHING => 0
  | .THREAT_FIVE => 100000
  | .THREAT_STRAIGHT_FOUR => 50000
  | .THREAT_FOUR => 20000
  | .THREAT_THREE_AND_FOUR => 10000
  | .THREAT_THREE_AND_THREE => 7000
  | .THREAT_THREE_AND_THREE_BROKEN => 3000
  | .THREAT_THREE => 1000
  | .THREAT_FOUR_BROKEN => 900
  | .THREAT_THREE_BROKEN => 300
  | .THREAT_TWO => 20
  | .THREAT_NEAR_ENEMY => 5

/-- `calculateCombinationThreat`: bonus for intersecting threats. -/
def calculateCombinationThreat (one two : ThreatType) : ℤ :=
  if (one = ThreatType.THREAT_THREE ∧
        (two = ThreatType.THREAT_FOUR ∨ two = ThreatType.THREAT_FOUR_BROKEN)) ∨
      (two = ThreatType.THREAT_THREE ∧
        (one = ThreatType.THREAT_FOUR ∨ one = ThreatType.THREAT_FOUR_BROKEN)) then
    threatCost ThreatType.THREAT_THREE_AND_FOUR
  else if one = ThreatType.THREAT_THREE ∧ two = ThreatType.THREAT_THREE then
    threatCost ThreatType.THREAT_THREE_AND_THREE
  else 0

/-- `calculateScoreAt`: the positional value of placing `player`'s stone
at the empty cell `(x,y)`: the four directional classifications, their
table costs, and the `4·3/2` pairwise combination bonuses. -/
def calculateScoreAt (b : Board) (player : CellType) (x y : Nat) : ℤ :=
  let t0 := calculateThreatInOneDimension (extractRow b x y .horizontal) player
  let t1 := calculateThreatInOneDimension (extractRow b x y .vertical) player
  let t2 := calculateThreatInOneDimension (extractRow b x y .diagonal1) player
  let t3 := calculateThreatInOneDimension (extractRow b x y .diagonal2) player
  threatCost t0 + threatCost t1 + threatCost t2 + threatCost t3
    + calculateCombinationThreat t0 t1 + calculateCombinationThreat t0 t2
    + calculateCombinationThreat t0 t3 + calculateCombinationThreat t1 t2
    + calculateCombinationThreat t1 t3 + calculateCombinationThreat t2 t3

/-- `findImmediateThreat`, pass 1: the first empty cell (row-major) where
placing `player`'s stone creates an immediate win. -/
def immediateWinCell (b : Board) (player : CellType) : Option (Nat × Nat) :=
  pairs19.findSome? fun ij =>
    if b ij.1 ij.2 = CellType.EMPTY then
      if checkWinAt (setCell b ij.1 ij.2 player) player ij.1 ij.2 then some ij
      else none
    else none

/-- `findImmediateThreat`, pass 2: the first empty cell (row-major) whose
occupation creates a critical four-threat. -/
def criticalFourCell (b : Board) (player : CellType) : Option (Nat × Nat) :=
  pairs19.findSome? fun ij =>
    if b ij.1 ij.2 = CellType.EMPTY then
      if checkCriticalFourThreat b player ij.1 ij.2 then some ij
      else none
    else none

/-- `findImmediateThreat`: direct wins first, then critical four-threats. -/
def findImmediateThreat (b : Board) (player : CellType) : Option (Nat × Nat) :=
  match immediateWinCell b player with
  | some ij => some ij
  | none => criticalFourCell b player

/-- Sum of `calculateScoreAt` over all empty cells for one player: the
accumulation performed by the evaluator's double loop. -/
def potentialSum (b : Board) (player : CellType) : ℤ :=
  pairs19.foldl
    (fun acc ij =>
      if b ij.1 ij.2 = CellType.EMPTY then acc + calculateScoreAt b player ij.1 ij.2
      else acc) 0

/-- `evaluateBoard` (turn-aware variant, `src/unnamed/part_006`): empty-cell
potentials for both sides, a ±100000 immediate-threat bonus, combined from
the perspective of the player to move. -/
def evaluateBoard (cfg : AIConfig) (b : Board) (isMaximizingPlayer : Bool) : ℚ :=
  let aiScore := potentialSum b cfg.aiPlayer
  let humanScore := potentialSum b cfg.humanPlayer
  let immediateBonus : ℤ :=
    (if (findImmediateThreat b cfg.aiPlayer).isSome then 100000 else 0)
      + (if (findImmediateThreat b cfg.humanPlayer).isSome then -100000 else 0)
  if isMaximizingPlayer then
    (3 / 2 : ℚ) * (aiScore : ℚ) - (humanScore : ℚ) + (immediateBonus : ℚ)
  else
    (3 / 2 : ℚ) * (humanScore : ℚ) - (aiScore : ℚ) - (immediateBonus : ℚ)

/-- `evaluateBoard` of the superseded simple additive variant
(`src/frontend/src/AlphaBetaAI.ts`): `1.5 * aiScore - humanScore`. -/
def evaluateBoardSimple (cfg : AIConfig) (b : Board) : ℚ :=
  let aiScore := potentialSum b cfg.aiPlayer
  let humanScore := potentialSum b cfg.humanPlayer
  (3 / 2 : ℚ) * (aiScore : ℚ) - (humanScore : ℚ)

/-- Stable descending insertion by `score` (ties keep earlier elements
first), the unique stable sort behaviour of `Array.prototype.sort` with
comparator `(a, b) => b.score - a.score`. -/
def insDesc (x : Move) : List Move → List Move
  | [] => [x]
  | y :: ys => if XQ.ble x.score y.score then y :: insDesc x ys else x :: y :: ys

/-- Stable descending sort by `score`. -/
def sortDesc (l : List Move) : List Move :=
  l.foldl (fun acc x => insDesc x acc) []

/-- The injected forced-move candidates of `generateMoves`: the human
immediate threat at fixed score 200000, then the AI immediate threat at
fixed score 300000. -/
def injectedMoves (cfg : AIConfig) (b : Board) : List Move :=
  (match findImmediateThreat b cfg.humanPlayer with
    | some ij => [⟨ij.1, ij.2, XQ.fin 200000⟩]
    | none => []) ++
  (match findImmediateThreat b cfg.aiPlayer with
    | some ij => [⟨ij.1, ij.2, XQ.fin 300000⟩]
    | none => [])

/-- The candidate list of `generateMoves` before sorting and truncation:
injected forced moves followed by every empty neighbour cell not already
added, scored by `calculateScoreAt` for the AI. -/
def movesPre (cfg : AIConfig) (b : Board) : List Move :=
  pairs19.foldl
    (fun ms ij =>
      if b ij.1 ij.2 = CellType.EMPTY ∧ hasNeighbor b ij.1 ij.2 ∧
          ¬ms.any (fun mv => mv.row = ij.1 ∧ mv.col = ij.2) then
        ms ++ [⟨ij.1, ij.2, XQ.fin (calculateScoreAt b cfg.aiPlayer ij.1 ij.2 : ℤ)⟩]
      else ms)
    (injectedMoves cfg b)

/-- `generateMoves`: centre opening on an empty board, otherwise the
sorted, capped candidate list. -/
def generateMoves (cfg : AIConfig) (b : Board) : List Move :=
  let center := BOARD_SIZE / 2
  if b center center = CellType.EMPTY ∧ isBoardEmpty b then
    [⟨center, center, XQ.fin 0⟩]
  else
    (sortDesc (movesPre cfg b)).take 20

/-- The maximizing loop of `alphaBeta`, with the board threaded through
each place/recurse/remove step and the `beta <= alpha` pruning break. -/
def abMaxLoop (cfg : AIConfig) (recur : Board → XQ → XQ → EvaluationResult × Board) :
    List Move → Board → XQ → XQ → XQ → Option Move → EvaluationResult × Board
  | [], b, _, _, maxScore, bm => (⟨maxScore, bm⟩, b)
  | mv :: rest, b, alpha, beta, maxScore, bm =>
      let placed := setCell b mv.row mv.col cfg.aiPlayer
      let res := recur placed alpha beta
      let restored := setCell res.2 mv.row mv.col CellType.EMPTY
      let improved := XQ.blt maxScore res.1.score
      let maxScore2 := if improved then res.1.score else maxScore
      let bm2 := if improved then some { mv with score := maxScore2 } else bm
      let alpha2 := XQ.qmax alpha res.1.score
      if XQ.ble beta alpha2 then (⟨maxScore2, bm2⟩, restored)
      else abMaxLoop cfg recur rest restored alpha2 beta maxScore2 bm2

/-- The minimizing loop of `alphaBeta`. -/
def abMinLoop (cfg : AIConfig) (recur : Board → XQ → XQ → EvaluationResult × Board) :
    List Move → Board → XQ → XQ → XQ → Option Move → EvaluationResult × Board
  | [], b, _, _, minScore, bm => (⟨minScore, bm⟩, b)
  | mv :: rest, b, alpha, beta, minScore, bm =>
      let placed := setCell b mv.row mv.col cfg.humanPlayer
      let res := recur placed alpha beta
      let restored := setCell res.2 mv.row mv.col CellType.EMPTY
      let improved := XQ.blt res.1.score minScore
      let minScore2 := if improved then res.1.score else minScore
      let bm2 := if improved then some { mv with score := minScore2 } else bm
      let beta2 := XQ.qmin beta res.1.score
      if XQ.ble beta2 alpha then (⟨minScore2, bm2⟩, restored)
      else abMinLoop cfg recur rest restored alpha beta2 minScore2 bm2

/-- `alphaBeta`: the core search.  Returns the evaluation result together
with the board as left behind by the call (modelling in-place mutation). -/
def alphaBeta (cfg : AIConfig) :
    Nat → Board → XQ → XQ → Bool → EvaluationResult × Board
  | 0, b, _, _, isMax => (⟨XQ.fin (evaluateBoard cfg b isMax), none⟩, b)
  | d + 1, b, alpha, beta, isMax =>
      if isGameOver b then (⟨XQ.fin (evaluateBoard cfg b isMax), none⟩, b)
      else
        let moves := generateMoves cfg b
        if isMax then
          abMaxLoop cfg (fun b2 a2 be2 => alphaBeta cfg d b2 a2 be2 false)
            moves b alpha beta XQ.negInf none
        else
          abMinLoop cfg (fun b2 a2 be2 => alphaBeta cfg d b2 a2 be2 true)
            moves b alpha beta XQ.posInf none

/-- The maximizing loop with the pruning break removed (reference
minimax); alpha/beta are gone since without the break they are unused. -/
def mmMaxLoop (cfg : AIConfig) (recur : Board → EvaluationResult × Board) :
    List Move → Board → XQ → Option Move → EvaluationResult × Board
  | [], b, maxScore, bm => (⟨maxScore, bm⟩, b)
  | mv :: rest, b, maxScore, bm =>
      let placed := setCell b mv.row mv.col cfg.aiPlayer
      let res := recur placed
      let restored := setCell res.2 mv.row mv.col CellType.EMPTY
      let improved := XQ.blt maxScore res.1.score
      let maxScore2 := if improved then res.1.score else maxScore
      let bm2 := if improved then some { mv with score := maxScore2 } else bm
      mmMaxLoop cfg recur rest restored maxScore2 bm2

/-- The minimizing loop with the pruning break removed. -/
def mmMinLoop (cfg : AIConfig) (recur : Board → EvaluationResult × Board) :
    List Move → Board → XQ → Option Move → EvaluationResult × Board
  | [], b, minScore, bm => (⟨minScore, bm⟩, b)
  | mv :: rest, b, minScore, bm =>
      let placed := setCell b mv.row mv.col cfg.humanPlayer
      let res := recur placed
      let restored := setCell res.2 mv.row mv.col CellType.EMPTY
      let improved := XQ.blt res.1.score minScore
      let minScore2 := if improved then res.1.score else minScore
      let bm2 := if improved then some { mv with score := minScore2 } else bm
      mmMinLoop cfg recur rest restored minScore2 bm2

/-- Unpruned full minimax: the identical recursion to `alphaBeta` with
the pruning break removed, over the same move-generator candidate lists. -/
def minimax (cfg : AIConfig) : Nat → Board → Bool → EvaluationResult × Board
  | 0, b, isMax => (⟨XQ.fin (evaluateBoard cfg b isMax), none⟩, b)
  | d + 1, b, isMax =>
      if isGameOver b then (⟨XQ.fin (evaluateBoard cfg b isMax), none⟩, b)
      else
        let moves := generateMoves cfg b
        if isMax then
          mmMaxLoop cfg (fun b2 => minimax cfg d b2 false) moves b XQ.negInf none
        else
          mmMinLoop cfg (fun b2 => minimax cfg d b2 true) moves b XQ.posInf none

/-- The iterative-deepening loop over the remaining depths.  `times d` is
the value of `Date.now()` observed at the top of the iteration for depth
`d`; `times 0` is the start time.  A depth whose up-front time check
exceeds the 3000 ms budget stops the loop, keeping the last completed
answer; a score at or above 90000 stops early with the winning move.
(The `continue` on scores at or below -90000 has no further effect in
the loop body and needs no model.) -/
def idLoop (cfg : AIConfig) (times : Nat → Int) (b : Board) (startTime : Int) :
    List Nat → XQ → Option Move → Option Move
  | [], _, bm => bm
  | depth :: rest, bestScore, bm =>
      let currentTime := times depth
      if 3000 < currentTime - startTime then bm
      else
        let result := (alphaBeta cfg depth b XQ.negInf XQ.posInf true).1
        match result.bestMove with
        | some mv =>
            if XQ.ble (XQ.fin 90000) result.score then some mv
            else idLoop cfg times b startTime rest result.score (some mv)
        | none => idLoop cfg times b startTime rest bestScore bm

/-- `findBestMoveWithIterativeDeepening` (hard difficulty): search depths
`1..maxDepth` under the wall-clock oracle `times`. -/
def findBestMoveWithIterativeDeepening (cfg : AIConfig) (times : Nat → Int)
    (b : Board) : Option (Nat × Nat) :=
  let startTime := times 0
  match idLoop cfg times b startTime (List.range' 1 cfg.maxDepth) XQ.negInf none with
  | some mv => some (mv.row, mv.col)
  | none => none

/-- `findBestMove`: the public entry point.  Converts the external board,
then either iterative deepening (hard) or a fixed-depth alpha-beta
search. -/
def findBestMove (cfg : AIConfig) (times : Nat → Int) (board : ExtBoard) :
    Option (Nat × Nat) :=
  let internalBoard := convertToInternalBoard board
  if cfg.difficulty = Difficulty.hard then
    findBestMoveWithIterativeDeepening cfg times internalBoard
  else
    match (alphaBeta cfg cfg.maxDepth internalBoard XQ.negInf XQ.posInf true).1.bestMove with
    | some mv => some (mv.row, mv.col)
    | none => none

/-- The descending-sortedness relation used for move ordering. -/
def scoreGE (a b : Move) : Prop := XQ.ble b.score a.score = true

/-- The loop body of the candidate enumeration. -/
def mpStep (cfg : AIConfig) (b : Board) (ms : List Move) (ij : Nat × Nat) : List Move :=
  if b ij.1 ij.2 = CellType.EMPTY ∧ hasNeighbor b ij.1 ij.2 ∧
      ¬ms.any (fun mv => mv.row = ij.1 ∧ mv.col = ij.2) then
    ms ++ [⟨ij.1, ij.2, XQ.fin (calculateScoreAt b cfg.aiPlayer ij.1 ij.2 : ℤ)⟩]
  else ms

/-- Coordinate distinctness of moves. -/
def coordNe (a b : Move) : Prop := (a.row, a.col) ≠ (b.row, b.col)

instance decCoordNe : DecidableRel coordNe := fun a b => by
  unfold coordNe
  infer_instance

/-- Score of the alpha-beta call. -/
def abS (cfg : AIConfig) (d : Nat) (b : Board) (alpha beta : XQ) (isMax : Bool) : XQ :=
  (alphaBeta cfg d b alpha beta isMax).1.score

/-- Score of the unpruned minimax call. -/
def mmS (cfg : AIConfig) (d : Nat) (b : Board) (isMax : Bool) : XQ :=
  (minimax cfg d b isMax).1.score

/-- The classical fail-soft guarantees: a value inside the window is
exact; a value at or below alpha bounds the true value from above; a
value at or above beta bounds it from below. -/
def FailSoft (cfg : AIConfig) (d : Nat) (b : Board) (alpha beta : XQ) (isMax : Bool) :
    Prop :=
  (XQ.ble (abS cfg d b alpha beta isMax) alpha = true →
    XQ.ble (mmS cfg d b isMax) (abS cfg d b alpha beta isMax) = true) ∧
  (XQ.blt alpha (abS cfg d b alpha beta isMax) = true ∧
      XQ.blt (abS cfg d b alpha beta isMax) beta = true →
    mmS cfg d b isMax = abS cfg d b alpha beta isMax) ∧
  (XQ.ble beta (abS cfg d b alpha beta isMax) = true →
    XQ.ble (abS cfg d b alpha beta isMax) (mmS cfg d b isMax) = true)


/-- The five walk-derived counters of one extracted window: contiguous
count, total stone count, left/right hole counts, and the enemy count,
exactly as accumulated by `calculateThreatInOneDimension`. -/
def lineMetrics (row : List CellType) (player : CellType) :
    Nat × Nat × Nat × Nat × Nat :=
  let right := walkSide player (row.drop (SEARCH_RADIUS + 1)) player 0 0 0
  let left := walkSide player ((row.take SEARCH_RADIUS).reverse) player 0 0 0
  (1 + right.contig + left.contig, 1 + right.stones + left.stones,
    left.holes, right.holes, right.enemy + left.enemy)

/-- Modelled from the spec: the claimed classification priority chain of
§4.2 / claim C5, as a function of the window's contiguous count, total
stone count, per-side hole counts and enemy flag.  Its NearEnemy
condition reads "exactly one side closed". -/
def claimedThreatChain (contig stones lH rH enemy : Nat) : ThreatType :=
  if 5 ≤ contig then ThreatType.THREAT_FIVE
  else if contig = 4 ∧ 0 < rH ∧ 0 < lH then ThreatType.THREAT_STRAIGHT_FOUR
  else if contig = 4 ∧ ((0 < rH ∧ lH = 0) ∨ (0 < lH ∧ rH = 0)) then ThreatType.THREAT_FOUR
  else if contig = 3 ∧ 0 < rH ∧ 0 < lH then ThreatType.THREAT_THREE
  else if 4 ≤ stones ∧ 0 < lH + rH ∧ 5 ≤ lH + rH + stones then
    ThreatType.THREAT_FOUR_BROKEN
  else if 3 ≤ stones ∧ 0 < lH + rH ∧ 5 ≤ lH + rH + stones then
    ThreatType.THREAT_THREE_BROKEN
  else if 2 ≤ contig ∧ 0 < lH + rH ∧ 4 ≤ lH + rH + stones then ThreatType.THREAT_TWO
  else if 1 ≤ contig ∧ ((rH = 0 ∧ 0 < lH) ∨ (lH = 0 ∧ 0 < rH)) ∧ 0 < enemy then
    ThreatType.THREAT_NEAR_ENEMY
  else ThreatType.THREAT_NOTHING

/-- The claimed chain amended only where the code disagrees: NearEnemy
fires when at least one side is closed (no holes on that side), which
includes the case of both sides blocked by enemy stones. -/
def amendedThreatChain (contig stones lH rH enemy : Nat) : ThreatType :=
  if 5 ≤ contig then ThreatType.THREAT_FIVE
  else if contig = 4 ∧ 0 < rH ∧ 0 < lH then ThreatType.THREAT_STRAIGHT_FOUR
  else if contig = 4 ∧ ((0 < rH ∧ lH = 0) ∨ (0 < lH ∧ rH = 0)) then ThreatType.THREAT_FOUR
  else if contig = 3 ∧ 0 < rH ∧ 0 < lH then ThreatType.THREAT_THREE
  else if 4 ≤ stones ∧ 0 < lH + rH ∧ 5 ≤ lH + rH + stones then
    ThreatType.THREAT_FOUR_BROKEN
  else if 3 ≤ stones ∧ 0 < lH + rH ∧ 5 ≤ lH + rH + stones then
    ThreatType.THREAT_THREE_BROKEN
  else if 2 ≤ contig ∧ 0 < lH + rH ∧ 4 ≤ lH + rH + stones then ThreatType.THREAT_TWO
  else if 1 ≤ contig ∧ (rH = 0 ∨ lH = 0) ∧ 0 < enemy then ThreatType.THREAT_NEAR_ENEMY
  else ThreatType.THREAT_NOTHING

/-- The claimed classifier: claimed chain over the code's walk metrics. -/
def claimedClassify (row : List CellType) (player : CellType) : ThreatType :=
  claimedThreatChain (lineMetrics row player).1 (lineMetrics row player).2.1
    (lineMetrics row player).2.2.1 (lineMetrics row player).2.2.2.1
    (lineMetrics row player).2.2.2.2

/-- The amended classifier: amended chain over the code's walk metrics. -/
def amendedClassify (row : List CellType) (player : CellType) : ThreatType :=
  amendedThreatChain (lineMetrics row player).1 (lineMetrics row player).2.1
    (lineMetrics row player).2.2.1 (lineMetrics row player).2.2.2.1
    (lineMetrics row player).2.2.2.2

/-- The per-side potential written as a sum over the empty cells, as the
spec phrases the evaluator's accumulation. -/
def emptyCellScoreSum (b : Board) (player : CellType) : ℤ :=
  ((pairs19.filter fun ij => b ij.1 ij.2 = CellType.EMPTY).map
    fun ij => calculateScoreAt b player ij.1 ij.2).sum

/-- Modelled from the spec: the evaluator claimed by C7, whose tactical
bonus fires only for a side with "an immediate one-move win" — a cell
whose occupation makes `checkWinAt` true (pass 1 only), not a
critical-four threat. -/
def claimedEvaluate (cfg : AIConfig) (b : Board) (isMaximizingPlayer : Bool) : ℚ :=
  let aiScore := emptyCellScoreSum b cfg.aiPlayer
  let humanScore := emptyCellScoreSum b cfg.humanPlayer
  let bonus : ℤ :=
    (if (immediateWinCell b cfg.aiPlayer).isSome then 100000 else 0)
      + (if (immediateWinCell b cfg.humanPlayer).isSome then -100000 else 0)
  if isMaximizingPlayer then
    (3 / 2 : ℚ) * (aiScore : ℚ) - (humanScore : ℚ) + (bonus : ℚ)
  else
    (3 / 2 : ℚ) * (humanScore : ℚ) - (aiScore : ℚ) - (bonus : ℚ)

/-! ### Concrete boards used by the witnesses and counterexamples -/

/-- A board whose only stones are a completed black five on row 0 and
plenty of empty cells: the game is already over but the board is far
from full. -/
def extBoardWonRow : ExtBoard := fun r c =>
  if r = 0 ∧ c ≤ 4 then ExtPlayer.black else ExtPlayer.null

/-- Four black stones at `(0,1)..(0,4)`: black wins by playing `(0,0)`. -/
def boardFourRow : Board := fun r c =>
  if r = 0 ∧ 1 ≤ c ∧ c ≤ 4 then CellType.BLACK else CellType.EMPTY

/-- Two white "crosses" whose centres `(4,4)` and `(4,9)` each complete a
five in two directions (plus a diagonal bump stone lifting the centre
score above 200000), and a black vertical four in column 14 whose
completion is `(4,14)`. -/
def boardDoubleCross : Board := fun r c =>
  if r ≤ 3 ∧ (c = 4 ∨ c = 9) then CellType.WHITE
  else if r = 4 ∧ (c ≤ 3 ∨ (5 ≤ c ∧ c ≤ 8)) then CellType.WHITE
  else if (r = 5 ∧ c = 5) ∨ (r = 5 ∧ c = 10) then CellType.WHITE
  else if r ≤ 3 ∧ c = 14 then CellType.BLACK
  else CellType.EMPTY

/-- An open black three at `(9,8)..(9,10)`: no one-move win exists for
either side, but black has a critical-four cell, so pass 2 of
`findImmediateThreat` fires. -/
def boardOpenThree : Board := fun r c =>
  if r = 9 ∧ 8 ≤ c ∧ c ≤ 10 then CellType.BLACK else CellType.EMPTY

/-- Black four in row 4 and white four in column 4 whose completion cell
is the same `(4,4)`: both injected immediate-threat cells coincide. -/
def boardSharedThreat : Board := fun r c =>
  if r = 4 ∧ c ≤ 3 then CellType.BLACK
  else if r ≤ 3 ∧ c = 4 then CellType.WHITE
  else CellType.EMPTY

/-- A board with a single empty cell `(0,0)` and no five anywhere: the
stone pattern has runs of length at most 2 in every direction. -/
def boardNearFull : Board := fun r c =>
  if r = 0 ∧ c = 0 then CellType.EMPTY
  else if (r + c / 2) % 2 = 0 then CellType.BLACK else CellType.WHITE

/-- The external form of `boardNearFull`. -/
def extBoardNearFull : ExtBoard := fun r c =>
  if r = 0 ∧ c = 0 then ExtPlayer.null
  else if (r + c / 2) % 2 = 0 then ExtPlayer.black else ExtPlayer.white

/-- A wall-clock oracle that lets depth 1 complete and then reports the
budget exceeded. -/
def timesDepthOne : Nat → Int := fun k => if k ≤ 1 then 0 else 9999

/-- The board with no stones at all. -/
def boardEmptyAll : Board := fun _ _ => CellType.EMPTY

/-- The extracted window whose centre is flanked by enemy stones on both
immediate sides: both hole counts are zero and two enemies are seen. -/
def windowBothEnemies : List CellType :=
  [CellType.EMPTY, CellType.EMPTY, CellType.EMPTY, CellType.WHITE, CellType.OUT_OF_BOUNDS,
   CellType.WHITE, CellType.EMPTY, CellType.EMPTY, CellType.EMPTY]

/-- White on every row except the empty rows 4, 9 and 14, plus a black
horizontal four at `(9,0)..(9,3)`: every empty cell of rows 4 and 14
completes a white five on the vertical and both diagonal axes, so more
than twenty ordinary candidates score 300000 while the injected human
threat cell `(9,4)` scores only 200000. -/
def boardEvict : Board := fun r c =>
  if r = 9 ∧ c ≤ 3 then CellType.BLACK
  else if r = 4 ∨ r = 9 ∨ r = 14 then CellType.EMPTY
  else CellType.WHITE


/-! ## Order theory for the score domain `XQ` -/

namespace XQ

theorem ble_refl (a : XQ) : ble a a = true := by
  cases a <;> simp [ble]

theorem ble_negInf_left (a : XQ) : ble negInf a = true := by
  cases a <;> simp [ble]

theorem ble_posInf_right (a : XQ) : ble a posInf = true := by
  cases a <;> simp [ble]

theorem ble_negInf_right {a : XQ} (h : ble a negInf = true) : a = negInf := by
  cases a <;> simp [ble] at h ⊢

theorem ble_posInf_left {a : XQ} (h : ble posInf a = true) : a = posInf := by
  cases a <;> simp [ble] at h ⊢

theorem ble_fin_fin {a b : ℚ} : ble (fin a) (fin b) = true ↔ a ≤ b := by
  simp [ble]

theorem ble_trans {a b c : XQ} (h1 : ble a b = true) (h2 : ble b c = true) :
    ble a c = true := by
  cases a <;> cases b <;> cases c <;> simp_all [ble]
  exact le_trans h1 h2

theorem ble_of_not_ble {a b : XQ} (h : ¬ ble a b = true) : ble b a = true := by
  cases a <;> cases b <;> simp_all [ble]
  exact le_of_lt h

theorem blt_iff {a b : XQ} : blt a b = true ↔ ¬ ble b a = true := by
  simp [blt]

theorem ble_of_blt {a b : XQ} (h : blt a b = true) : ble a b = true :=
  ble_of_not_ble (blt_iff.mp h)

theorem blt_of_ble_of_blt {a b c : XQ} (h1 : ble a b = true) (h2 : blt b c = true) :
    blt a c = true := by
  rw [blt_iff] at h2 ⊢
  intro hca
  exact h2 (ble_trans hca h1)

theorem blt_of_blt_of_ble {a b c : XQ} (h1 : blt a b = true) (h2 : ble b c = true) :
    blt a c = true := by
  rw [blt_iff] at h1 ⊢
  intro hca
  exact h1 (ble_trans h2 hca)

theorem not_ble_and_blt {a b : XQ} (h1 : ble a b = true) (h2 : blt a b = false) : a = b := by
  cases a <;> cases b <;> simp_all [ble, blt] <;> exact le_antisymm h1 h2

theorem ble_qmax_left (a b : XQ) : ble a (qmax a b) = true := by
  unfold qmax
  split
  · assumption
  · exact ble_refl a

theorem ble_qmax_right (a b : XQ) : ble b (qmax a b) = true := by
  unfold qmax
  split
  · exact ble_refl b
  · exact ble_of_not_ble (by simp_all)

theorem qmax_ble {a b c : XQ} (h1 : ble a c = true) (h2 : ble b c = true) :
    ble (qmax a b) c = true := by
  unfold qmax
  split <;> assumption

theorem qmax_eq_left_or_right (a b : XQ) : qmax a b = a ∨ qmax a b = b := by
  unfold qmax
  split
  · exact Or.inr rfl
  · exact Or.inl rfl

theorem qmax_negInf_right (a : XQ) : qmax a negInf = a := by
  cases a <;> simp [qmax, ble]

theorem qmax_negInf_left (a : XQ) : qmax negInf a = a := by
  cases a <;> simp [qmax, ble]

theorem qmax_posInf_right (a : XQ) : qmax a posInf = posInf := by
  cases a <;> simp [qmax, ble]

theorem qmax_posInf_left (a : XQ) : qmax posInf a = posInf := by
  cases a <;> simp [qmax, ble]

theorem ble_antisymm {a b : XQ} (h1 : ble a b = true) (h2 : ble b a = true) : a = b := by
  cases a <;> cases b <;> simp_all [ble]
  exact le_antisymm h1 h2

theorem qmax_fin_fin (a b : ℚ) : qmax (fin a) (fin b) = fin (max a b) := by
  rw [max_def, qmax]
  by_cases h : a ≤ b <;> simp [ble, h]

theorem qmax_assoc (a b c : XQ) : qmax (qmax a b) c = qmax a (qmax b c) := by
  cases a <;> cases b <;> cases c <;>
    simp only [qmax_negInf_left, qmax_negInf_right, qmax_posInf_left, qmax_posInf_right,
      qmax_fin_fin]
  exact congrArg fin (max_assoc ..)

/-- The maximizing-loop update `if blt s w then w else s` is `qmax s w`. -/
theorem ite_blt_eq_qmax (s w : XQ) : (if blt s w = true then w else s) = qmax s w := by
  unfold qmax
  rcases Bool.eq_false_or_eq_true (ble s w) with h | h
  · rcases Bool.eq_false_or_eq_true (ble w s) with h2 | h2
    · have hsw : s = w := ble_antisymm h h2
      rcases Bool.eq_false_or_eq_true (blt s w) with h3 | h3 <;> simp [h, h3, hsw]
    · have : blt s w = true := blt_iff.mpr (by simp [h2])
      simp [h, this]
  · have hws : ble w s = true := ble_of_not_ble (by simp [h])
    have : blt s w = false := by
      rcases Bool.eq_false_or_eq_true (blt s w) with h2 | h2
      · exact absurd hws (blt_iff.mp h2)
      · exact h2
    simp [h, this]

theorem ble_qmin_left (a b : XQ) : ble (qmin a b) a = true := by
  unfold qmin
  split
  · assumption
  · exact ble_refl a

theorem ble_qmin_right (a b : XQ) : ble (qmin a b) b = true := by
  unfold qmin
  split
  · exact ble_refl b
  · exact ble_of_not_ble (by simp_all)

theorem qmin_ble {a b c : XQ} (h1 : ble c a = true) (h2 : ble c b = true) :
    ble c (qmin a b) = true := by
  unfold qmin
  split <;> assumption

theorem qmin_eq_left_or_right (a b : XQ) : qmin a b = a ∨ qmin a b = b := by
  unfold qmin
  split
  · exact Or.inr rfl
  · exact Or.inl rfl

theorem qmin_posInf_right (a : XQ) : qmin a posInf = a := by
  cases a <;> simp [qmin, ble]

/-- The minimizing-loop update `if blt w s then w else s` is `qmin s w`. -/
theorem ite_blt_eq_qmin (s w : XQ) : (if blt w s = true then w else s) = qmin s w := by
  unfold qmin
  rcases Bool.eq_false_or_eq_true (ble w s) with h | h
  · rcases Bool.eq_false_or_eq_true (ble s w) with h2 | h2
    · have hsw : s = w := ble_antisymm h2 h
      rcases Bool.eq_false_or_eq_true (blt w s) with h3 | h3 <;> simp [h, h3, hsw]
    · have : blt w s = true := blt_iff.mpr (by simp [h2])
      simp [h, this]
  · have hsw : ble s w = true := ble_of_not_ble (by simp [h])
    have : blt w s = false := by
      rcases Bool.eq_false_or_eq_true (blt w s) with h2 | h2
      · exact absurd hsw (blt_iff.mp h2)
      · exact h2
    simp [h, this]

theorem blt_negInf_fin (q : ℚ) : blt negInf (fin q) = true := by simp [blt, ble]

theorem blt_fin_posInf (q : ℚ) : blt (fin q) posInf = true := by simp [blt, ble]

theorem fin_ne_negInf (q : ℚ) : fin q ≠ negInf := by simp

theorem fin_ne_posInf (q : ℚ) : fin q ≠ posInf := by simp

end XQ

/-! ## Basic facts about the board scan order and the sort -/

theorem mem_pairs19 {i j : Nat} : (i, j) ∈ pairs19 ↔ i < 19 ∧ j < 19 := by
  simp [pairs19, List.mem_flatMap, BOARD_SIZE]

/-- Stable descending insertion keeps membership. -/
theorem mem_insDesc {x y : Move} {l : List Move} :
    y ∈ insDesc x l ↔ y = x ∨ y ∈ l := by
  induction l with
  | nil => simp [insDesc]
  | cons a t ih =>
      by_cases h : XQ.ble x.score a.score = true
      · simp only [insDesc, h, if_true, List.mem_cons, ih]
        tauto
      · simp only [insDesc, h, if_false, Bool.false_eq_true, reduceIte, List.mem_cons]

theorem insDesc_perm (x : Move) (l : List Move) : (insDesc x l).Perm (x :: l) := by
  induction l with
  | nil => simp [insDesc]
  | cons a t ih =>
      by_cases h : XQ.ble x.score a.score = true
      · simp only [insDesc, h, if_true]
        exact (List.Perm.cons a ih).trans (List.Perm.swap x a t)
      · simp [insDesc, h]

theorem sortDesc_go_perm (l acc : List Move) :
    (l.foldl (fun acc2 x => insDesc x acc2) acc).Perm (l ++ acc) := by
  induction l generalizing acc with
  | nil => simp
  | cons a t ih =>
      simp only [List.foldl_cons, List.cons_append]
      refine (ih (insDesc a acc)).trans ?_
      have h1 : (t ++ insDesc a acc).Perm (t ++ a :: acc) :=
        List.Perm.append_left t (insDesc_perm a acc)
      exact h1.trans List.perm_middle

theorem sortDesc_perm (l : List Move) : (sortDesc l).Perm l := by
  have := sortDesc_go_perm l []
  simpa [sortDesc] using this

theorem mem_sortDesc {x : Move} {l : List Move} : x ∈ sortDesc l ↔ x ∈ l :=
  (sortDesc_perm l).mem_iff

theorem insDesc_sorted {x : Move} {l : List Move} (h : l.Pairwise scoreGE) :
    (insDesc x l).Pairwise scoreGE := by
  induction l with
  | nil => simp [insDesc, List.pairwise_singleton]
  | cons a t ih =>
      rcases List.pairwise_cons.mp h with ⟨ha, ht⟩
      by_cases hx : XQ.ble x.score a.score = true
      · simp only [insDesc, hx, if_true]
        refine List.pairwise_cons.mpr ⟨?_, ih ht⟩
        intro y hy
        rcases mem_insDesc.mp hy with rfl | hy2
        · exact hx
        · exact ha y hy2
      · simp only [insDesc, hx, if_false, Bool.false_eq_true, reduceIte]
        refine List.pairwise_cons.mpr ⟨?_, h⟩
        intro y hy
        have hax : scoreGE x a := XQ.ble_of_not_ble (by simp [hx])
        rcases List.mem_cons.mp hy with rfl | hy2
        · exact hax
        · exact XQ.ble_trans (ha y hy2) hax

theorem sortDesc_sorted (l : List Move) : (sortDesc l).Pairwise scoreGE := by
  suffices h : ∀ acc : List Move, acc.Pairwise scoreGE →
      (l.foldl (fun acc2 x => insDesc x acc2) acc).Pairwise scoreGE by
    exact h [] List.Pairwise.nil
  induction l with
  | nil => intro acc hacc; simpa using hacc
  | cons a t ih =>
      intro acc hacc
      exact ih (insDesc a acc) (insDesc_sorted hacc)

/-- Retention under the cap: a member of a descending-sorted list with at
most 20 elements scoring at least as much as it (itself included) survives
`take 20`. -/
theorem mem_take_of_sorted {l : List Move} {m : Move}
    (hs : l.Pairwise scoreGE) (hm : m ∈ l)
    (hc : l.countP (fun x => XQ.ble m.score x.score) ≤ 20) : m ∈ l.take 20 := by
  by_cases h : m ∈ l.take 20
  · exact h
  · exfalso
    have hsplit : l = l.take 20 ++ l.drop 20 := (List.take_append_drop 20 l).symm
    have hmdrop : m ∈ l.drop 20 := by
      rcases List.mem_append.mp (hsplit ▸ hm) with h1 | h1
      · exact absurd h1 h
      · exact h1
    have hlen20 : (l.take 20).length = 20 := by
      rcases Nat.lt_or_ge l.length 20 with hl | hl
      · exfalso
        have : l.drop 20 = [] := List.drop_eq_nil_of_le (le_of_lt hl)
        rw [this] at hmdrop
        simp at hmdrop
      · simp [List.length_take, Nat.min_eq_left hl]
    -- every element of the kept prefix scores at least m's score
    have hall : ∀ x ∈ l.take 20, XQ.ble m.score x.score = true := by
      intro x hx
      have hp : (l.take 20 ++ l.drop 20).Pairwise scoreGE := hsplit ▸ hs
      have := (List.pairwise_append.mp hp).2.2
      exact this x hx m hmdrop
    have hcount1 : 20 ≤ (l.take 20).countP (fun x => XQ.ble m.score x.score) := by
      have : (l.take 20).countP (fun x => XQ.ble m.score x.score) = (l.take 20).length := by
        apply List.countP_eq_length.mpr
        intro x hx
        simpa using hall x hx
      omega
    have hcount2 : 1 ≤ (l.drop 20).countP (fun x => XQ.ble m.score x.score) := by
      have : (fun x => XQ.ble m.score x.score) m = true := by
        simpa using XQ.ble_refl m.score
      calc 1 = [m].countP (fun x => XQ.ble m.score x.score) := by simp [this]
        _ ≤ (l.drop 20).countP (fun x => XQ.ble m.score x.score) := by
            apply List.Sublist.countP_le
            simpa using List.singleton_sublist.mpr hmdrop
    have : l.countP (fun x => XQ.ble m.score x.score) =
        (l.take 20).countP (fun x => XQ.ble m.score x.score)
          + (l.drop 20).countP (fun x => XQ.ble m.score x.score) := by
      conv_lhs => rw [hsplit]
      rw [List.countP_append]
    omega

/-! ## Immediate-threat detection facts -/

theorem immediateWinCell_spec {b : Board} {p : CellType} {rc : Nat × Nat}
    (h : immediateWinCell b p = some rc) :
    rc.1 < 19 ∧ rc.2 < 19 ∧ b rc.1 rc.2 = CellType.EMPTY ∧
      checkWinAt (setCell b rc.1 rc.2 p) p rc.1 rc.2 = true := by
  rcases List.exists_of_findSome?_eq_some h with ⟨ij, hmem, heq⟩
  by_cases h1 : b ij.1 ij.2 = CellType.EMPTY
  · by_cases h2 : checkWinAt (setCell b ij.1 ij.2 p) p ij.1 ij.2 = true
    · simp only [h1, h2, if_true, reduceIte, Option.some.injEq] at heq
      subst heq
      have hb := mem_pairs19.mp (by simpa using hmem)
      exact ⟨hb.1, hb.2, h1, h2⟩
    · simp [h1, h2] at heq
  · simp [h1] at heq

theorem criticalFourCell_spec {b : Board} {p : CellType} {rc : Nat × Nat}
    (h : criticalFourCell b p = some rc) :
    rc.1 < 19 ∧ rc.2 < 19 ∧ b rc.1 rc.2 = CellType.EMPTY ∧
      checkCriticalFourThreat b p rc.1 rc.2 = true := by
  rcases List.exists_of_findSome?_eq_some h with ⟨ij, hmem, heq⟩
  by_cases h1 : b ij.1 ij.2 = CellType.EMPTY
  · by_cases h2 : checkCriticalFourThreat b p ij.1 ij.2 = true
    · simp only [h1, h2, if_true, reduceIte, Option.some.injEq] at heq
      subst heq
      have hb := mem_pairs19.mp (by simpa using hmem)
      exact ⟨hb.1, hb.2, h1, h2⟩
    · simp [h1, h2] at heq
  · simp [h1] at heq

theorem findImmediateThreat_cases {b : Board} {p : CellType} {rc : Nat × Nat}
    (h : findImmediateThreat b p = some rc) :
    immediateWinCell b p = some rc ∨
      (immediateWinCell b p = none ∧ criticalFourCell b p = some rc) := by
  unfold findImmediateThreat at h
  cases hw : immediateWinCell b p with
  | some x =>
      rw [hw] at h
      exact Or.inl h
  | none =>
      rw [hw] at h
      exact Or.inr ⟨rfl, h⟩

theorem findImmediateThreat_some {b : Board} {p : CellType} {rc : Nat × Nat}
    (h : findImmediateThreat b p = some rc) :
    rc.1 < 19 ∧ rc.2 < 19 ∧ b rc.1 rc.2 = CellType.EMPTY := by
  rcases findImmediateThreat_cases h with h1 | ⟨_, h2⟩
  · have := immediateWinCell_spec h1
    exact ⟨this.1, this.2.1, this.2.2.1⟩
  · have := criticalFourCell_spec h2
    exact ⟨this.1, this.2.1, this.2.2.1⟩

theorem checkCriticalFourThreat_exists {b : Board} {p : CellType} {row col : Nat}
    (h : checkCriticalFourThreat b p row col = true) :
    ∃ d ∈ dirList,
      4 ≤ dirRunCount (setCell b row col p) p row col d.1 d.2 ∧
        (dirOpenNeg (setCell b row col p) p row col d.1 d.2 = true ∨
          dirOpenPos (setCell b row col p) p row col d.1 d.2 = true) := by
  unfold checkCriticalFourThreat at h
  rcases List.any_eq_true.mp h with ⟨d, hd, hcond⟩
  refine ⟨d, hd, ?_⟩
  simp only [Bool.and_eq_true, Bool.or_eq_true, decide_eq_true_eq] at hcond
  exact ⟨hcond.1, hcond.2⟩

/-! ## The candidate-list fold of `generateMoves` -/

theorem movesPre_eq_foldl (cfg : AIConfig) (b : Board) :
    movesPre cfg b = pairs19.foldl (mpStep cfg b) (injectedMoves cfg b) := rfl

theorem mem_foldl_mpStep_mono {cfg : AIConfig} {b : Board} {x : Move}
    {ms : List Move} (l : List (Nat × Nat)) (h : x ∈ ms) :
    x ∈ l.foldl (mpStep cfg b) ms := by
  induction l generalizing ms with
  | nil => simpa using h
  | cons a t ih =>
      simp only [List.foldl_cons]
      apply ih
      unfold mpStep
      split
      · simp [h]
      · exact h

theorem foldl_mpStep_prop {cfg : AIConfig} {b : Board} {P : Move → Prop}
    {ms : List Move} {l : List (Nat × Nat)}
    (hms : ∀ x ∈ ms, P x)
    (hnew : ∀ ij ∈ l, b ij.1 ij.2 = CellType.EMPTY →
      P ⟨ij.1, ij.2, XQ.fin (calculateScoreAt b cfg.aiPlayer ij.1 ij.2 : ℤ)⟩) :
    ∀ x ∈ l.foldl (mpStep cfg b) ms, P x := by
  induction l generalizing ms with
  | nil => simpa using hms
  | cons a t ih =>
      simp only [List.foldl_cons]
      refine ih ?_ (fun ij hij => hnew ij (List.mem_cons_of_mem a hij))
      intro x hx
      unfold mpStep at hx
      split at hx
      · rcases List.mem_append.mp hx with h1 | h1
        · exact hms x h1
        · rcases List.mem_singleton.mp h1 with rfl
          next hcond => exact hnew a (List.mem_cons_self a t) hcond.1
      · exact hms x hx

theorem foldl_mpStep_exists {cfg : AIConfig} {b : Board} {r c : Nat}
    {ms : List Move} {l : List (Nat × Nat)}
    (hmem : (r, c) ∈ l) (hempty : b r c = CellType.EMPTY)
    (hnb : hasNeighbor b r c = true) :
    ∃ mv ∈ l.foldl (mpStep cfg b) ms, mv.row = r ∧ mv.col = c := by
  induction l generalizing ms with
  | nil => simp at hmem
  | cons a t ih =>
      simp only [List.foldl_cons]
      rcases List.mem_cons.mp hmem with rfl | ht
      · by_cases hany : ms.any (fun mv => mv.row = r ∧ mv.col = c) = true
        · rcases List.any_eq_true.mp hany with ⟨mv, hmv, hcoords⟩
          simp only [decide_eq_true_eq] at hcoords
          exact ⟨mv, mem_foldl_mpStep_mono t (by
            unfold mpStep
            split
            · exact List.mem_append_left _ hmv
            · exact hmv), hcoords⟩
        · refine ⟨⟨r, c, XQ.fin (calculateScoreAt b cfg.aiPlayer r c : ℤ)⟩,
            mem_foldl_mpStep_mono t ?_, rfl, rfl⟩
          unfold mpStep
          rw [if_pos ⟨hempty, hnb, by simpa using hany⟩]
          exact List.mem_append_right _ (List.mem_singleton.mpr rfl)
      · exact ih ht

theorem foldl_mpStep_pairwise {cfg : AIConfig} {b : Board}
    {ms : List Move} {l : List (Nat × Nat)} (h : ms.Pairwise coordNe) :
    (l.foldl (mpStep cfg b) ms).Pairwise coordNe := by
  induction l generalizing ms with
  | nil => simpa using h
  | cons a t ih =>
      simp only [List.foldl_cons]
      apply ih
      unfold mpStep
      split
      · next hcond =>
          rw [List.pairwise_append]
          refine ⟨h, List.pairwise_singleton _ _, ?_⟩
          intro x hx y hy
          rcases List.mem_singleton.mp hy with rfl
          have hnotany := hcond.2.2
          intro hcontra
          apply hnotany
          apply List.any_eq_true.mpr
          refine ⟨x, hx, ?_⟩
          simp only [decide_eq_true_eq]
          exact ⟨congrArg Prod.fst hcontra, congrArg Prod.snd hcontra⟩
      · exact h

/-! ## Properties of the generated candidate list -/

theorem injected_human_mem {cfg : AIConfig} {b : Board} {p : Nat × Nat}
    (h : findImmediateThreat b cfg.humanPlayer = some p) :
    Move.mk p.1 p.2 (XQ.fin 200000) ∈ injectedMoves cfg b := by
  unfold injectedMoves
  rw [h]
  exact List.mem_append_left _ (List.mem_singleton.mpr rfl)

theorem injected_ai_mem {cfg : AIConfig} {b : Board} {p : Nat × Nat}
    (h : findImmediateThreat b cfg.aiPlayer = some p) :
    Move.mk p.1 p.2 (XQ.fin 300000) ∈ injectedMoves cfg b := by
  unfold injectedMoves
  rw [h]
  exact List.mem_append_right _ (List.mem_singleton.mpr rfl)

theorem injected_prop {cfg : AIConfig} {b : Board} :
    ∀ mv ∈ injectedMoves cfg b,
      mv.row < 19 ∧ mv.col < 19 ∧ b mv.row mv.col = CellType.EMPTY := by
  intro mv hmv
  unfold injectedMoves at hmv
  rcases List.mem_append.mp hmv with h | h
  · cases hh : findImmediateThreat b cfg.humanPlayer with
    | some p =>
        rw [hh] at h
        rcases List.mem_singleton.mp h with rfl
        exact findImmediateThreat_some hh
    | none =>
        rw [hh] at h
        simp at h
  · cases ha : findImmediateThreat b cfg.aiPlayer with
    | some p =>
        rw [ha] at h
        rcases List.mem_singleton.mp h with rfl
        exact findImmediateThreat_some ha
    | none =>
        rw [ha] at h
        simp at h

theorem movesPre_prop {cfg : AIConfig} {b : Board} :
    ∀ mv ∈ movesPre cfg b,
      mv.row < 19 ∧ mv.col < 19 ∧ b mv.row mv.col = CellType.EMPTY := by
  rw [movesPre_eq_foldl]
  refine foldl_mpStep_prop injected_prop ?_
  rintro ⟨i, j⟩ hij hempty
  have hb := mem_pairs19.mp hij
  exact ⟨hb.1, hb.2, hempty⟩

theorem injected_human_mem_movesPre {cfg : AIConfig} {b : Board} {p : Nat × Nat}
    (h : findImmediateThreat b cfg.humanPlayer = some p) :
    Move.mk p.1 p.2 (XQ.fin 200000) ∈ movesPre cfg b := by
  rw [movesPre_eq_foldl]
  exact mem_foldl_mpStep_mono pairs19 (injected_human_mem h)

theorem injected_ai_mem_movesPre {cfg : AIConfig} {b : Board} {p : Nat × Nat}
    (h : findImmediateThreat b cfg.aiPlayer = some p) :
    Move.mk p.1 p.2 (XQ.fin 300000) ∈ movesPre cfg b := by
  rw [movesPre_eq_foldl]
  exact mem_foldl_mpStep_mono pairs19 (injected_ai_mem h)

theorem injected_pairwise {cfg : AIConfig} {b : Board}
    (h : ∀ p : Nat × Nat, ¬(findImmediateThreat b cfg.humanPlayer = some p ∧
      findImmediateThreat b cfg.aiPlayer = some p)) :
    (injectedMoves cfg b).Pairwise coordNe := by
  unfold injectedMoves
  cases hh : findImmediateThreat b cfg.humanPlayer with
  | none =>
      cases ha : findImmediateThreat b cfg.aiPlayer with
      | none => simp
      | some q => simp [List.pairwise_singleton]
  | some p =>
      cases ha : findImmediateThreat b cfg.aiPlayer with
      | none => simp [List.pairwise_singleton]
      | some q =>
          have hpq : p ≠ q := by
            intro hcontra
            exact h p ⟨hh, hcontra ▸ ha⟩
          simp only [List.singleton_append]
          refine List.pairwise_cons.mpr ⟨?_, List.pairwise_singleton _ _⟩
          intro x hx
          rcases List.mem_singleton.mp hx with rfl
          unfold coordNe
          simp only [ne_eq, Prod.mk.injEq, not_and]
          intro h1 h2
          exact absurd (Prod.ext h1 h2) hpq

theorem movesPre_pairwise {cfg : AIConfig} {b : Board}
    (h : ∀ p : Nat × Nat, ¬(findImmediateThreat b cfg.humanPlayer = some p ∧
      findImmediateThreat b cfg.aiPlayer = some p)) :
    (movesPre cfg b).Pairwise coordNe := by
  rw [movesPre_eq_foldl]
  exact foldl_mpStep_pairwise (injected_pairwise h)


theorem generateMoves_def (cfg : AIConfig) (b : Board) :
    generateMoves cfg b =
      if b (BOARD_SIZE / 2) (BOARD_SIZE / 2) = CellType.EMPTY ∧ isBoardEmpty b = true then
        [⟨BOARD_SIZE / 2, BOARD_SIZE / 2, XQ.fin 0⟩]
      else (sortDesc (movesPre cfg b)).take 20 := rfl

theorem generateMoves_eq_of_not_center {cfg : AIConfig} {b : Board}
    (h : ¬(b (BOARD_SIZE / 2) (BOARD_SIZE / 2) = CellType.EMPTY ∧ isBoardEmpty b = true)) :
    generateMoves cfg b = (sortDesc (movesPre cfg b)).take 20 := by
  rw [generateMoves_def, if_neg h]

theorem generateMoves_mem_prop {cfg : AIConfig} {b : Board} :
    ∀ mv ∈ generateMoves cfg b,
      mv.row < 19 ∧ mv.col < 19 ∧ b mv.row mv.col = CellType.EMPTY := by
  intro mv hmv
  rw [generateMoves_def] at hmv
  split at hmv
  · next hcond =>
      rcases List.mem_singleton.mp hmv with rfl
      exact ⟨by norm_num [BOARD_SIZE], by norm_num [BOARD_SIZE], hcond.1⟩
  · exact movesPre_prop mv (mem_sortDesc.mp (List.mem_of_mem_take hmv))

theorem generateMoves_length_le {cfg : AIConfig} {b : Board} :
    (generateMoves cfg b).length ≤ 20 := by
  rw [generateMoves_def]
  split
  · simp
  · simpa using List.length_take_le 20 _

theorem coordNe_symm : ∀ {a b : Move}, coordNe a b → coordNe b a := by
  intro a b h
  unfold coordNe at h ⊢
  exact h.symm

theorem generateMoves_pairwise {cfg : AIConfig} {b : Board}
    (h : ∀ p : Nat × Nat, ¬(findImmediateThreat b cfg.humanPlayer = some p ∧
      findImmediateThreat b cfg.aiPlayer = some p)) :
    (generateMoves cfg b).Pairwise coordNe := by
  rw [generateMoves_def]
  split
  · exact List.pairwise_singleton _ _
  · have hp : (movesPre cfg b).Pairwise coordNe := movesPre_pairwise h
    have hsorted : (sortDesc (movesPre cfg b)).Pairwise coordNe :=
      ((sortDesc_perm (movesPre cfg b)).pairwise_iff fun hab => coordNe_symm hab).mpr hp
    exact hsorted.sublist (List.take_sublist 20 _)

theorem generateMoves_retention {cfg : AIConfig} {b : Board} {mv : Move}
    (hne : ¬(b (BOARD_SIZE / 2) (BOARD_SIZE / 2) = CellType.EMPTY ∧ isBoardEmpty b = true))
    (hmem : mv ∈ movesPre cfg b)
    (hcount : (movesPre cfg b).countP (fun x => XQ.ble mv.score x.score) ≤ 20) :
    mv ∈ generateMoves cfg b := by
  rw [generateMoves_eq_of_not_center hne]
  apply mem_take_of_sorted (sortDesc_sorted _) (mem_sortDesc.mpr hmem)
  rw [(sortDesc_perm (movesPre cfg b)).countP_eq]
  exact hcount

/-! ## Any non-terminal board has a candidate move (grid connectivity) -/

theorem hasNeighbor_of_occupied {b : Board} {r c rn cn : Nat} {dr dc : Int}
    (hd : (dr, dc) ∈ ([(-1, 0), (1, 0), (0, -1), (0, 1)] : List (Int × Int)))
    (hrn : ((r : Int) + dr) = (rn : Int)) (hcn : ((c : Int) + dc) = (cn : Int))
    (hrn19 : rn < 19) (hcn19 : cn < 19)
    (hocc : b rn cn ≠ CellType.EMPTY) :
    hasNeighbor b r c = true := by
  unfold hasNeighbor
  rw [List.any_eq_true]
  refine ⟨dr, ?_, ?_⟩
  · fin_cases hd <;> simp
  · rw [List.any_eq_true]
    refine ⟨dc, ?_, ?_⟩
    · fin_cases hd <;> simp
    · have hd2 : ¬(dr = 0 ∧ dc = 0) := by fin_cases hd <;> simp
      rw [if_neg hd2]
      have hin : inB ((r : Int) + dr) ((c : Int) + dc) = true := by
        simp only [inB, BOARD_SIZE, Bool.and_eq_true, decide_eq_true_eq]
        omega
      have hget : getI b ((r : Int) + dr) ((c : Int) + dc) = b rn cn := by
        rw [hrn, hcn]
        simp [getI]
      simp only [Bool.and_eq_true, hin, true_and, hget]
      simpa using hocc

theorem empty_frontier_aux (b : Board) :
    ∀ n r0 c0 r1 c1, r0 < 19 → c0 < 19 → r1 < 19 → c1 < 19 →
      b r0 c0 ≠ CellType.EMPTY → b r1 c1 = CellType.EMPTY →
      ((max r0 r1 - min r0 r1) + (max c0 c1 - min c0 c1) ≤ n) →
      ∃ r c, r < 19 ∧ c < 19 ∧ b r c = CellType.EMPTY ∧ hasNeighbor b r c = true := by
  intro n
  induction n with
  | zero =>
      intro r0 c0 r1 c1 _ _ _ _ hocc hemp hdist
      exfalso
      have : r0 = r1 ∧ c0 = c1 := by omega
      exact hocc (this.1 ▸ this.2 ▸ hemp)
  | succ n ih =>
      intro r0 c0 r1 c1 hr0 hc0 hr1 hc1 hocc hemp hdist
      by_cases heq : r0 = r1 ∧ c0 = c1
      · exact absurd (heq.1 ▸ heq.2 ▸ hemp) hocc
      · rcases Nat.lt_trichotomy r0 r1 with hr | hr | hr
        · by_cases hnext : b (r0 + 1) c0 = CellType.EMPTY
          · exact ⟨r0 + 1, c0, by omega, hc0, hnext,
              @hasNeighbor_of_occupied b (r0 + 1) c0 r0 c0 (-1) 0
                (by simp) (by push_cast; ring) (by push_cast; ring) hr0 hc0 hocc⟩
          · exact ih (r0 + 1) c0 r1 c1 (by omega) hc0 hr1 hc1 hnext hemp (by omega)
        · rcases Nat.lt_trichotomy c0 c1 with hc | hc | hc
          · by_cases hnext : b r0 (c0 + 1) = CellType.EMPTY
            · exact ⟨r0, c0 + 1, hr0, by omega, hnext,
                @hasNeighbor_of_occupied b r0 (c0 + 1) r0 c0 0 (-1)
                  (by simp) (by push_cast; ring) (by push_cast; ring) hr0 hc0 hocc⟩
            · exact ih r0 (c0 + 1) r1 c1 hr0 (by omega) hr1 hc1 hnext hemp (by omega)
          · exact absurd ⟨hr, hc⟩ heq
          · by_cases hnext : b r0 (c0 - 1) = CellType.EMPTY
            · exact ⟨r0, c0 - 1, hr0, by omega, hnext,
                @hasNeighbor_of_occupied b r0 (c0 - 1) r0 c0 0 1
                  (by simp) (by push_cast; ring) (by omega) hr0 hc0 hocc⟩
            · exact ih r0 (c0 - 1) r1 c1 hr0 (by omega) hr1 hc1 hnext hemp (by omega)
        · by_cases hnext : b (r0 - 1) c0 = CellType.EMPTY
          · exact ⟨r0 - 1, c0, by omega, hc0, hnext,
              @hasNeighbor_of_occupied b (r0 - 1) c0 r0 c0 1 0
                (by simp) (by omega) (by push_cast; ring) hr0 hc0 hocc⟩
          · exact ih (r0 - 1) c0 r1 c1 (by omega) hc0 hr1 hc1 hnext hemp (by omega)

/-- On a board with a stone and an empty cell inside the grid, some empty
in-bounds cell has an occupied 8-neighbour. -/
theorem empty_frontier {b : Board} {r0 c0 r1 c1 : Nat}
    (hr0 : r0 < 19) (hc0 : c0 < 19) (hr1 : r1 < 19) (hc1 : c1 < 19)
    (hocc : b r0 c0 ≠ CellType.EMPTY) (hemp : b r1 c1 = CellType.EMPTY) :
    ∃ r c, r < 19 ∧ c < 19 ∧ b r c = CellType.EMPTY ∧ hasNeighbor b r c = true :=
  empty_frontier_aux b ((max r0 r1 - min r0 r1) + (max c0 c1 - min c0 c1))
    r0 c0 r1 c1 hr0 hc0 hr1 hc1 hocc hemp le_rfl

theorem isBoardEmpty_all {b : Board} (h : isBoardEmpty b = true) :
    ∀ r c, r < 19 → c < 19 → b r c = CellType.EMPTY := by
  intro r c hr hc
  have := List.all_eq_true.mp h (r, c) (mem_pairs19.mpr ⟨hr, hc⟩)
  simpa using this

theorem exists_stone_of_not_empty {b : Board} (h : isBoardEmpty b = false) :
    ∃ r c, r < 19 ∧ c < 19 ∧ b r c ≠ CellType.EMPTY := by
  rcases List.all_eq_false.mp h with ⟨⟨r, c⟩, hmem, hcell⟩
  have hb := mem_pairs19.mp hmem
  exact ⟨r, c, hb.1, hb.2, by simpa using hcell⟩

theorem exists_empty_of_not_full {b : Board} (h : isBoardFull b = false) :
    ∃ r c, r < 19 ∧ c < 19 ∧ b r c = CellType.EMPTY := by
  rcases List.all_eq_false.mp h with ⟨⟨r, c⟩, hmem, hcell⟩
  have hb := mem_pairs19.mp hmem
  exact ⟨r, c, hb.1, hb.2, by simpa using hcell⟩

theorem not_full_of_not_gameOver {b : Board} (h : isGameOver b = false) :
    isBoardFull b = false := by
  unfold isGameOver at h
  exact (Bool.or_eq_false_iff.mp h).2

theorem generateMoves_ne_nil {cfg : AIConfig} {b : Board}
    (h : isGameOver b = false) : generateMoves cfg b ≠ [] := by
  rw [generateMoves_def]
  split
  · simp
  · next hcond =>
      have hne : isBoardEmpty b = false := by
        rcases Bool.eq_false_or_eq_true (isBoardEmpty b) with he | he
        · exact absurd ⟨isBoardEmpty_all he (BOARD_SIZE / 2) (BOARD_SIZE / 2)
            (by norm_num [BOARD_SIZE]) (by norm_num [BOARD_SIZE]), he⟩ hcond
        · exact he
      rcases exists_stone_of_not_empty hne with ⟨r0, c0, hr0, hc0, hocc⟩
      rcases exists_empty_of_not_full (not_full_of_not_gameOver h) with
        ⟨r1, c1, hr1, hc1, hemp⟩
      rcases empty_frontier hr0 hc0 hr1 hc1 hocc hemp with ⟨r, c, hr, hc, hce, hnb⟩
      have hx : ∃ mv ∈ movesPre cfg b, mv.row = r ∧ mv.col = c := by
        rw [movesPre_eq_foldl]
        exact foldl_mpStep_exists (mem_pairs19.mpr ⟨hr, hc⟩) hce hnb
      rcases hx with ⟨mv, hmv, _⟩
      have hlen : 0 < (movesPre cfg b).length := List.length_pos_of_mem hmv
      have hlen2 : 0 < (sortDesc (movesPre cfg b)).length := by
        rw [(sortDesc_perm (movesPre cfg b)).length_eq]
        exact hlen
      intro hnil
      rw [← List.length_eq_zero] at hnil
      rw [List.length_take] at hnil
      omega

/-! ## The search never damages the board (place/remove pairing) -/

theorem setCell_restore {b : Board} {r c : Nat} {p : CellType}
    (h : b r c = CellType.EMPTY) :
    setCell (setCell b r c p) r c CellType.EMPTY = b := by
  funext r2 c2
  unfold setCell
  by_cases hrc : r2 = r ∧ c2 = c
  · rw [if_pos hrc, hrc.1, hrc.2, h]
  · rw [if_neg hrc, if_neg hrc]

theorem abMaxLoop_board {cfg : AIConfig}
    {recur : Board → XQ → XQ → EvaluationResult × Board}
    (hrec : ∀ b2 a2 be2, (recur b2 a2 be2).2 = b2) :
    ∀ (ms : List Move) (b : Board) (alpha beta maxScore : XQ) (bm : Option Move),
      (∀ mv ∈ ms, b mv.row mv.col = CellType.EMPTY) →
      (abMaxLoop cfg recur ms b alpha beta maxScore bm).2 = b := by
  intro ms
  induction ms with
  | nil => intro b alpha beta maxScore bm _; rfl
  | cons mv rest ih =>
      intro b alpha beta maxScore bm hemp
      have hres : (recur (setCell b mv.row mv.col cfg.aiPlayer) alpha beta).2 =
          setCell b mv.row mv.col cfg.aiPlayer := hrec _ _ _
      have hrestore :
          setCell (recur (setCell b mv.row mv.col cfg.aiPlayer) alpha beta).2
            mv.row mv.col CellType.EMPTY = b := by
        rw [hres]
        exact setCell_restore (hemp mv (List.mem_cons_self mv rest))
      rw [abMaxLoop]
      simp only [hrestore]
      split
      · rfl
      · exact ih b _ _ _ _ fun x hx => hemp x (List.mem_cons_of_mem mv hx)

theorem abMinLoop_board {cfg : AIConfig}
    {recur : Board → XQ → XQ → EvaluationResult × Board}
    (hrec : ∀ b2 a2 be2, (recur b2 a2 be2).2 = b2) :
    ∀ (ms : List Move) (b : Board) (alpha beta minScore : XQ) (bm : Option Move),
      (∀ mv ∈ ms, b mv.row mv.col = CellType.EMPTY) →
      (abMinLoop cfg recur ms b alpha beta minScore bm).2 = b := by
  intro ms
  induction ms with
  | nil => intro b alpha beta minScore bm _; rfl
  | cons mv rest ih =>
      intro b alpha beta minScore bm hemp
      have hres : (recur (setCell b mv.row mv.col cfg.humanPlayer) alpha beta).2 =
          setCell b mv.row mv.col cfg.humanPlayer := hrec _ _ _
      have hrestore :
          setCell (recur (setCell b mv.row mv.col cfg.humanPlayer) alpha beta).2
            mv.row mv.col CellType.EMPTY = b := by
        rw [hres]
        exact setCell_restore (hemp mv (List.mem_cons_self mv rest))
      rw [abMinLoop]
      simp only [hrestore]
      split
      · rfl
      · exact ih b _ _ _ _ fun x hx => hemp x (List.mem_cons_of_mem mv hx)

/-- The alpha-beta search restores the board: every placement is paired
with a removal, including iterations cut short by the pruning break. -/
theorem alphaBeta_board (cfg : AIConfig) :
    ∀ (d : Nat) (b : Board) (alpha beta : XQ) (isMax : Bool),
      (alphaBeta cfg d b alpha beta isMax).2 = b := by
  intro d
  induction d with
  | zero => intro b alpha beta isMax; rfl
  | succ d ih =>
      intro b alpha beta isMax
      rw [alphaBeta]
      split
      · rfl
      · split
        · exact abMaxLoop_board (fun b2 a2 be2 => ih b2 a2 be2 false) _ b _ _ _ _
            fun mv hmv => (generateMoves_mem_prop mv hmv).2.2
        · exact abMinLoop_board (fun b2 a2 be2 => ih b2 a2 be2 true) _ b _ _ _ _
            fun mv hmv => (generateMoves_mem_prop mv hmv).2.2

theorem mmMaxLoop_board {cfg : AIConfig}
    {recur : Board → EvaluationResult × Board}
    (hrec : ∀ b2, (recur b2).2 = b2) :
    ∀ (ms : List Move) (b : Board) (maxScore : XQ) (bm : Option Move),
      (∀ mv ∈ ms, b mv.row mv.col = CellType.EMPTY) →
      (mmMaxLoop cfg recur ms b maxScore bm).2 = b := by
  intro ms
  induction ms with
  | nil => intro b maxScore bm _; rfl
  | cons mv rest ih =>
      intro b maxScore bm hemp
      have hrestore :
          setCell (recur (setCell b mv.row mv.col cfg.aiPlayer)).2
            mv.row mv.col CellType.EMPTY = b := by
        rw [hrec]
        exact setCell_restore (hemp mv (List.mem_cons_self mv rest))
      rw [mmMaxLoop]
      simp only [hrestore]
      exact ih b _ _ fun x hx => hemp x (List.mem_cons_of_mem mv hx)

theorem mmMinLoop_board {cfg : AIConfig}
    {recur : Board → EvaluationResult × Board}
    (hrec : ∀ b2, (recur b2).2 = b2) :
    ∀ (ms : List Move) (b : Board) (minScore : XQ) (bm : Option Move),
      (∀ mv ∈ ms, b mv.row mv.col = CellType.EMPTY) →
      (mmMinLoop cfg recur ms b minScore bm).2 = b := by
  intro ms
  induction ms with
  | nil => intro b minScore bm _; rfl
  | cons mv rest ih =>
      intro b minScore bm hemp
      have hrestore :
          setCell (recur (setCell b mv.row mv.col cfg.humanPlayer)).2
            mv.row mv.col CellType.EMPTY = b := by
        rw [hrec]
        exact setCell_restore (hemp mv (List.mem_cons_self mv rest))
      rw [mmMinLoop]
      simp only [hrestore]
      exact ih b _ _ fun x hx => hemp x (List.mem_cons_of_mem mv hx)

theorem minimax_board (cfg : AIConfig) :
    ∀ (d : Nat) (b : Board) (isMax : Bool), (minimax cfg d b isMax).2 = b := by
  intro d
  induction d with
  | zero => intro b isMax; rfl
  | succ d ih =>
      intro b isMax
      rw [minimax]
      split
      · rfl
      · split
        · exact mmMaxLoop_board (fun b2 => ih b2 false) _ b _ _
            fun mv hmv => (generateMoves_mem_prop mv hmv).2.2
        · exact mmMinLoop_board (fun b2 => ih b2 true) _ b _ _
            fun mv hmv => (generateMoves_mem_prop mv hmv).2.2

/-! ## All reachable node values are finite -/

theorem abMaxLoop_fin {cfg : AIConfig}
    {recur : Board → XQ → XQ → EvaluationResult × Board}
    (hrec : ∀ b2 a2 be2, ∃ q, (recur b2 a2 be2).1.score = XQ.fin q) :
    ∀ (ms : List Move) (b : Board) (alpha beta s : XQ) (bm : Option Move),
      ((s = XQ.negInf ∧ ms ≠ []) ∨ (∃ q, s = XQ.fin q)) →
      ∃ q, (abMaxLoop cfg recur ms b alpha beta s bm).1.score = XQ.fin q := by
  intro ms
  induction ms with
  | nil =>
      intro b alpha beta s bm h
      rcases h with ⟨_, hne⟩ | ⟨q, hq⟩
      · exact absurd rfl hne
      · exact ⟨q, hq⟩
  | cons mv rest ih =>
      intro b alpha beta s bm h
      rw [abMaxLoop]
      rcases hrec (setCell b mv.row mv.col cfg.aiPlayer) alpha beta with ⟨qw, hw⟩
      have hfin : ∃ q2, (if XQ.blt s (recur (setCell b mv.row mv.col cfg.aiPlayer)
          alpha beta).1.score = true
          then (recur (setCell b mv.row mv.col cfg.aiPlayer) alpha beta).1.score
          else s) = XQ.fin q2 := by
        rcases h with ⟨hs, _⟩ | ⟨q, hq⟩
        · subst hs
          rw [hw, XQ.blt_negInf_fin, if_pos rfl]
          exact ⟨qw, hw ▸ hw⟩
        · subst hq
          split
          · exact ⟨qw, hw⟩
          · exact ⟨q, rfl⟩
      rcases hfin with ⟨q2, hq2⟩
      split
      · simpa using ⟨q2, hq2⟩
      · exact ih _ _ _ _ _ (Or.inr ⟨q2, hq2⟩)

theorem abMinLoop_fin {cfg : AIConfig}
    {recur : Board → XQ → XQ → EvaluationResult × Board}
    (hrec : ∀ b2 a2 be2, ∃ q, (recur b2 a2 be2).1.score = XQ.fin q) :
    ∀ (ms : List Move) (b : Board) (alpha beta s : XQ) (bm : Option Move),
      ((s = XQ.posInf ∧ ms ≠ []) ∨ (∃ q, s = XQ.fin q)) →
      ∃ q, (abMinLoop cfg recur ms b alpha beta s bm).1.score = XQ.fin q := by
  intro ms
  induction ms with
  | nil =>
      intro b alpha beta s bm h
      rcases h with ⟨_, hne⟩ | ⟨q, hq⟩
      · exact absurd rfl hne
      · exact ⟨q, hq⟩
  | cons mv rest ih =>
      intro b alpha beta s bm h
      rw [abMinLoop]
      rcases hrec (setCell b mv.row mv.col cfg.humanPlayer) alpha beta with ⟨qw, hw⟩
      have hfin : ∃ q2, (if XQ.blt (recur (setCell b mv.row mv.col cfg.humanPlayer)
          alpha beta).1.score s = true
          then (recur (setCell b mv.row mv.col cfg.humanPlayer) alpha beta).1.score
          else s) = XQ.fin q2 := by
        rcases h with ⟨hs, _⟩ | ⟨q, hq⟩
        · subst hs
          rw [hw, XQ.blt_fin_posInf, if_pos rfl]
          exact ⟨qw, hw ▸ hw⟩
        · subst hq
          split
          · exact ⟨qw, hw⟩
          · exact ⟨q, rfl⟩
      rcases hfin with ⟨q2, hq2⟩
      split
      · simpa using ⟨q2, hq2⟩
      · exact ih _ _ _ _ _ (Or.inr ⟨q2, hq2⟩)

theorem alphaBeta_fin (cfg : AIConfig) :
    ∀ (d : Nat) (b : Board) (alpha beta : XQ) (isMax : Bool),
      ∃ q, (alphaBeta cfg d b alpha beta isMax).1.score = XQ.fin q := by
  intro d
  induction d with
  | zero => intro b alpha beta isMax; exact ⟨_, rfl⟩
  | succ d ih =>
      intro b alpha beta isMax
      rw [alphaBeta]
      split
      · exact ⟨_, rfl⟩
      · next hgo =>
          have hne : generateMoves cfg b ≠ [] :=
            generateMoves_ne_nil (Bool.not_eq_true _ ▸ eq_false_of_ne_true hgo)
          split
          · exact abMaxLoop_fin (fun b2 a2 be2 => ih b2 a2 be2 false) _ b _ _ _ _
              (Or.inl ⟨rfl, hne⟩)
          · exact abMinLoop_fin (fun b2 a2 be2 => ih b2 a2 be2 true) _ b _ _ _ _
              (Or.inl ⟨rfl, hne⟩)

/-! ## The best move returned at an internal node comes from the move list -/

theorem abMaxLoop_bm_mem {cfg : AIConfig}
    {recur : Board → XQ → XQ → EvaluationResult × Board} :
    ∀ (ms : List Move) (b : Board) (alpha beta s : XQ) (bm : Option Move) (m : Move),
      (abMaxLoop cfg recur ms b alpha beta s bm).1.bestMove = some m →
      bm = some m ∨ ∃ mv ∈ ms, m.row = mv.row ∧ m.col = mv.col := by
  intro ms
  induction ms with
  | nil =>
      intro b alpha beta s bm m h
      exact Or.inl h
  | cons mv rest ih =>
      intro b alpha beta s bm m h
      rw [abMaxLoop] at h
      split at h
      · -- pruning break
        simp only at h
        split at h
        · exact Or.inr ⟨mv, List.mem_cons_self mv rest, by
            rcases Option.some.injEq .. ▸ h with rfl
            exact ⟨rfl, rfl⟩⟩
        · exact Or.inl h
      · rcases ih _ _ _ _ _ _ h with h2 | ⟨mv2, hmv2, hco⟩
        · split at h2
          · rcases Option.some.injEq .. ▸ h2 with rfl
            exact Or.inr ⟨mv, List.mem_cons_self mv rest, rfl, rfl⟩
          · exact Or.inl h2
        · exact Or.inr ⟨mv2, List.mem_cons_of_mem mv hmv2, hco⟩

theorem abMinLoop_bm_mem {cfg : AIConfig}
    {recur : Board → XQ → XQ → EvaluationResult × Board} :
    ∀ (ms : List Move) (b : Board) (alpha beta s : XQ) (bm : Option Move) (m : Move),
      (abMinLoop cfg recur ms b alpha beta s bm).1.bestMove = some m →
      bm = some m ∨ ∃ mv ∈ ms, m.row = mv.row ∧ m.col = mv.col := by
  intro ms
  induction ms with
  | nil =>
      intro b alpha beta s bm m h
      exact Or.inl h
  | cons mv rest ih =>
      intro b alpha beta s bm m h
      rw [abMinLoop] at h
      split at h
      · simp only at h
        split at h
        · exact Or.inr ⟨mv, List.mem_cons_self mv rest, by
            rcases Option.some.injEq .. ▸ h with rfl
            exact ⟨rfl, rfl⟩⟩
        · exact Or.inl h
      · rcases ih _ _ _ _ _ _ h with h2 | ⟨mv2, hmv2, hco⟩
        · split at h2
          · rcases Option.some.injEq .. ▸ h2 with rfl
            exact Or.inr ⟨mv, List.mem_cons_self mv rest, rfl, rfl⟩
          · exact Or.inl h2
        · exact Or.inr ⟨mv2, List.mem_cons_of_mem mv hmv2, hco⟩

theorem alphaBeta_bm_mem {cfg : AIConfig} {d : Nat} {b : Board}
    {alpha beta : XQ} {isMax : Bool} {m : Move}
    (h : (alphaBeta cfg d b alpha beta isMax).1.bestMove = some m) :
    ∃ mv ∈ generateMoves cfg b, m.row = mv.row ∧ m.col = mv.col := by
  cases d with
  | zero => simp [alphaBeta] at h
  | succ d =>
      rw [alphaBeta] at h
      split at h
      · simp at h
      · split at h
        · rcases abMaxLoop_bm_mem _ _ _ _ _ _ _ h with h2 | h2
          · simp at h2
          · exact h2
        · rcases abMinLoop_bm_mem _ _ _ _ _ _ _ h with h2 | h2
          · simp at h2
          · exact h2

theorem alphaBeta_bm_valid {cfg : AIConfig} {d : Nat} {b : Board}
    {alpha beta : XQ} {isMax : Bool} {m : Move}
    (h : (alphaBeta cfg d b alpha beta isMax).1.bestMove = some m) :
    m.row < 19 ∧ m.col < 19 ∧ b m.row m.col = CellType.EMPTY := by
  rcases alphaBeta_bm_mem h with ⟨mv, hmv, hr, hc⟩
  have := generateMoves_mem_prop mv hmv
  exact ⟨hr ▸ this.1, hc ▸ this.2.1, by rw [hr, hc]; exact this.2.2⟩

theorem abMaxLoop_bm_isSome {cfg : AIConfig}
    {recur : Board → XQ → XQ → EvaluationResult × Board}
    (hrec : ∀ b2 a2 be2, ∃ q, (recur b2 a2 be2).1.score = XQ.fin q) :
    ∀ (ms : List Move) (b : Board) (alpha beta s : XQ) (bm : Option Move),
      (bm.isSome = true ∨ (s = XQ.negInf ∧ ms ≠ [])) →
      (abMaxLoop cfg recur ms b alpha beta s bm).1.bestMove.isSome = true := by
  intro ms
  induction ms with
  | nil =>
      intro b alpha beta s bm h
      rcases h with h | ⟨_, hne⟩
      · exact h
      · exact absurd rfl hne
  | cons mv rest ih =>
      intro b alpha beta s bm h
      rw [abMaxLoop]
      rcases hrec (setCell b mv.row mv.col cfg.aiPlayer) alpha beta with ⟨qw, hw⟩
      have hbm2 : (if XQ.blt s (recur (setCell b mv.row mv.col cfg.aiPlayer)
          alpha beta).1.score = true
          then some { mv with score := if XQ.blt s (recur (setCell b mv.row mv.col
            cfg.aiPlayer) alpha beta).1.score = true
            then (recur (setCell b mv.row mv.col cfg.aiPlayer) alpha beta).1.score
            else s }
          else bm).isSome = true := by
        rcases h with hsome | ⟨hs, _⟩
        · split
          · rfl
          · exact hsome
        · subst hs
          rw [hw, XQ.blt_negInf_fin]
          simp
      split
      · simpa using hbm2
      · exact ih _ _ _ _ _ (Or.inl hbm2)

theorem alphaBeta_bm_isSome {cfg : AIConfig} {d : Nat} {b : Board}
    {alpha beta : XQ} (hd : 0 < d) (hgo : isGameOver b = false) :
    (alphaBeta cfg d b alpha beta true).1.bestMove.isSome = true := by
  cases d with
  | zero => omega
  | succ d =>
      rw [alphaBeta]
      rw [if_neg (by simp [hgo])]
      simp only [if_true]
      exact abMaxLoop_bm_isSome (fun b2 a2 be2 => alphaBeta_fin cfg d b2 a2 be2 false)
        _ b _ _ _ _ (Or.inr ⟨rfl, generateMoves_ne_nil hgo⟩)

/-! ## Terminal and iterative-deepening behaviour -/

theorem alphaBeta_bm_none_of_gameOver {cfg : AIConfig} {d : Nat} {b : Board}
    {alpha beta : XQ} {isMax : Bool} (h : isGameOver b = true) :
    (alphaBeta cfg d b alpha beta isMax).1.bestMove = none := by
  cases d with
  | zero => rfl
  | succ d =>
      rw [alphaBeta, if_pos h]

/-- Validity is preserved along the iterative-deepening loop: any move it
can return is a root best move of some completed depth (hence an empty,
in-bounds cell), or the incoming answer. -/
theorem idLoop_valid {cfg : AIConfig} {times : Nat → Int} {b : Board}
    {startTime : Int} :
    ∀ (depths : List Nat) (bestScore : XQ) (bm : Option Move),
      (∀ m0, bm = some m0 →
        m0.row < 19 ∧ m0.col < 19 ∧ b m0.row m0.col = CellType.EMPTY) →
      ∀ m, idLoop cfg times b startTime depths bestScore bm = some m →
        m.row < 19 ∧ m.col < 19 ∧ b m.row m.col = CellType.EMPTY := by
  intro depths
  induction depths with
  | nil =>
      intro bestScore bm hbm m h
      exact hbm m h
  | cons depth rest ih =>
      intro bestScore bm hbm m h
      rw [idLoop] at h
      split at h
      · exact hbm m h
      · dsimp only at h
        split at h
        · next mv hmv =>
            split at h
            · rcases Option.some.injEq .. ▸ h with rfl
              exact alphaBeta_bm_valid hmv
            · exact ih _ _ (fun m0 hm0 => by
                rcases Option.some.injEq .. ▸ hm0 with rfl
                exact alphaBeta_bm_valid hmv) m h
        · exact ih _ _ hbm m h

/-- The iterative-deepening loop returns an answer whenever it starts
with one. -/
theorem idLoop_isSome {cfg : AIConfig} {times : Nat → Int} {b : Board}
    {startTime : Int} :
    ∀ (depths : List Nat) (bestScore : XQ) (bm : Option Move),
      bm.isSome = true →
      (idLoop cfg times b startTime depths bestScore bm).isSome = true := by
  intro depths
  induction depths with
  | nil =>
      intro bestScore bm hbm
      exact hbm
  | cons depth rest ih =>
      intro bestScore bm hbm
      rw [idLoop]
      split
      · exact hbm
      · dsimp only
        split
        · split
          · rfl
          · exact ih _ _ rfl
        · exact ih _ _ hbm

/-! ## Bounds on the unpruned loop values -/

theorem mmMaxLoop_ge_acc {cfg : AIConfig} {recur : Board → EvaluationResult × Board} :
    ∀ (ms : List Move) (b : Board) (s : XQ) (bm : Option Move),
      XQ.ble s (mmMaxLoop cfg recur ms b s bm).1.score = true := by
  intro ms
  induction ms with
  | nil => intro b s bm; exact XQ.ble_refl s
  | cons mv rest ih =>
      intro b s bm
      rw [mmMaxLoop]
      rw [XQ.ite_blt_eq_qmax]
      exact XQ.ble_trans (XQ.ble_qmax_left s _) (ih _ _ _)

theorem mmMaxLoop_ge_child {cfg : AIConfig} {recur : Board → EvaluationResult × Board}
    (hrec : ∀ b2, (recur b2).2 = b2) :
    ∀ (ms : List Move) (b : Board) (s : XQ) (bm : Option Move) (mv : Move),
      (∀ x ∈ ms, b x.row x.col = CellType.EMPTY) →
      mv ∈ ms →
      XQ.ble (recur (setCell b mv.row mv.col cfg.aiPlayer)).1.score
        (mmMaxLoop cfg recur ms b s bm).1.score = true := by
  intro ms
  induction ms with
  | nil => intro b s bm mv _ hmv; simp at hmv
  | cons x rest ih =>
      intro b s bm mv hemp hmv
      rw [mmMaxLoop]
      rw [XQ.ite_blt_eq_qmax]
      have hboard : setCell (recur (setCell b x.row x.col cfg.aiPlayer)).2
          x.row x.col CellType.EMPTY = b := by
        rw [hrec]
        exact setCell_restore (hemp x (List.mem_cons_self x rest))
      rw [hboard]
      rcases List.mem_cons.mp hmv with rfl | hmv2
      · exact XQ.ble_trans (XQ.ble_qmax_right s _) (mmMaxLoop_ge_acc _ _ _ _)
      · exact ih b _ _ mv (fun y hy => hemp y (List.mem_cons_of_mem x hy)) hmv2

theorem mmMinLoop_le_acc {cfg : AIConfig} {recur : Board → EvaluationResult × Board} :
    ∀ (ms : List Move) (b : Board) (s : XQ) (bm : Option Move),
      XQ.ble (mmMinLoop cfg recur ms b s bm).1.score s = true := by
  intro ms
  induction ms with
  | nil => intro b s bm; exact XQ.ble_refl s
  | cons mv rest ih =>
      intro b s bm
      rw [mmMinLoop]
      rw [XQ.ite_blt_eq_qmin]
      exact XQ.ble_trans (ih _ _ _) (XQ.ble_qmin_left s _)

theorem mmMinLoop_le_child {cfg : AIConfig} {recur : Board → EvaluationResult × Board}
    (hrec : ∀ b2, (recur b2).2 = b2) :
    ∀ (ms : List Move) (b : Board) (s : XQ) (bm : Option Move) (mv : Move),
      (∀ x ∈ ms, b x.row x.col = CellType.EMPTY) →
      mv ∈ ms →
      XQ.ble (mmMinLoop cfg recur ms b s bm).1.score
        (recur (setCell b mv.row mv.col cfg.humanPlayer)).1.score = true := by
  intro ms
  induction ms with
  | nil => intro b s bm mv _ hmv; simp at hmv
  | cons x rest ih =>
      intro b s bm mv hemp hmv
      rw [mmMinLoop]
      rw [XQ.ite_blt_eq_qmin]
      have hboard : setCell (recur (setCell b x.row x.col cfg.humanPlayer)).2
          x.row x.col CellType.EMPTY = b := by
        rw [hrec]
        exact setCell_restore (hemp x (List.mem_cons_self x rest))
      rw [hboard]
      rcases List.mem_cons.mp hmv with rfl | hmv2
      · exact XQ.ble_trans (mmMinLoop_le_acc _ _ _ _) (XQ.ble_qmin_right s _)
      · exact ih b _ _ mv (fun y hy => hemp y (List.mem_cons_of_mem x hy)) hmv2

namespace XQ

theorem qmax_eq_right {a b : XQ} (h : ble a b = true) : qmax a b = b := if_pos h

theorem qmax_eq_left {a b : XQ} (h : ble b a = true) : qmax a b = a := by
  unfold qmax
  split
  · next h2 => exact (ble_antisymm h2 h).symm
  · rfl

theorem qmin_eq_right {a b : XQ} (h : ble b a = true) : qmin a b = b := if_pos h

theorem qmin_eq_left {a b : XQ} (h : ble a b = true) : qmin a b = a := by
  unfold qmin
  split
  · next h2 => exact (ble_antisymm h h2).symm
  · rfl

theorem blt_of_ble_eq_false {a b : XQ} (h : ble b a = false) : blt a b = true := by
  simp [blt, h]

theorem ble_of_blt_eq_false {a b : XQ} (h : blt a b = false) : ble b a = true := by
  simpa [blt] using h

theorem blt_negInf_right (a : XQ) : blt a negInf = false := by
  simp [blt, ble_negInf_left]

theorem blt_posInf_left (a : XQ) : blt posInf a = false := by
  simp [blt, ble_posInf_right]

end XQ

/-! ## Step equations for the search loops -/

theorem abMaxLoop_cons (cfg : AIConfig)
    (recur : Board → XQ → XQ → EvaluationResult × Board)
    (mv : Move) (rest : List Move) (b : Board) (alpha beta s : XQ) (bm : Option Move) :
    abMaxLoop cfg recur (mv :: rest) b alpha beta s bm =
      if XQ.ble beta (XQ.qmax alpha
          (recur (setCell b mv.row mv.col cfg.aiPlayer) alpha beta).1.score) = true then
        (⟨XQ.qmax s (recur (setCell b mv.row mv.col cfg.aiPlayer) alpha beta).1.score,
          if XQ.blt s (recur (setCell b mv.row mv.col cfg.aiPlayer) alpha beta).1.score = true
          then some (Move.mk mv.row mv.col
            (XQ.qmax s (recur (setCell b mv.row mv.col cfg.aiPlayer) alpha beta).1.score))
          else bm⟩,
         setCell (recur (setCell b mv.row mv.col cfg.aiPlayer) alpha beta).2
           mv.row mv.col CellType.EMPTY)
      else
        abMaxLoop cfg recur rest
          (setCell (recur (setCell b mv.row mv.col cfg.aiPlayer) alpha beta).2
            mv.row mv.col CellType.EMPTY)
          (XQ.qmax alpha (recur (setCell b mv.row mv.col cfg.aiPlayer) alpha beta).1.score)
          beta
          (XQ.qmax s (recur (setCell b mv.row mv.col cfg.aiPlayer) alpha beta).1.score)
          (if XQ.blt s (recur (setCell b mv.row mv.col cfg.aiPlayer) alpha beta).1.score = true
           then some (Move.mk mv.row mv.col
             (XQ.qmax s (recur (setCell b mv.row mv.col cfg.aiPlayer) alpha beta).1.score))
           else bm) := by
  rw [abMaxLoop]
  simp only [XQ.ite_blt_eq_qmax]

theorem abMinLoop_cons (cfg : AIConfig)
    (recur : Board → XQ → XQ → EvaluationResult × Board)
    (mv : Move) (rest : List Move) (b : Board) (alpha beta s : XQ) (bm : Option Move) :
    abMinLoop cfg recur (mv :: rest) b alpha beta s bm =
      if XQ.ble (XQ.qmin beta
          (recur (setCell b mv.row mv.col cfg.humanPlayer) alpha beta).1.score) alpha = true then
        (⟨XQ.qmin s (recur (setCell b mv.row mv.col cfg.humanPlayer) alpha beta).1.score,
          if XQ.blt (recur (setCell b mv.row mv.col cfg.humanPlayer) alpha beta).1.score s = true
          then some (Move.mk mv.row mv.col
            (XQ.qmin s (recur (setCell b mv.row mv.col cfg.humanPlayer) alpha beta).1.score))
          else bm⟩,
         setCell (recur (setCell b mv.row mv.col cfg.humanPlayer) alpha beta).2
           mv.row mv.col CellType.EMPTY)
      else
        abMinLoop cfg recur rest
          (setCell (recur (setCell b mv.row mv.col cfg.humanPlayer) alpha beta).2
            mv.row mv.col CellType.EMPTY)
          alpha
          (XQ.qmin beta (recur (setCell b mv.row mv.col cfg.humanPlayer) alpha beta).1.score)
          (XQ.qmin s (recur (setCell b mv.row mv.col cfg.humanPlayer) alpha beta).1.score)
          (if XQ.blt (recur (setCell b mv.row mv.col cfg.humanPlayer) alpha beta).1.score s = true
           then some (Move.mk mv.row mv.col
             (XQ.qmin s (recur (setCell b mv.row mv.col cfg.humanPlayer) alpha beta).1.score))
           else bm) := by
  rw [abMinLoop]
  simp only [XQ.ite_blt_eq_qmin]

theorem mmMaxLoop_cons (cfg : AIConfig)
    (recur : Board → EvaluationResult × Board)
    (mv : Move) (rest : List Move) (b : Board) (s : XQ) (bm : Option Move) :
    mmMaxLoop cfg recur (mv :: rest) b s bm =
      mmMaxLoop cfg recur rest
        (setCell (recur (setCell b mv.row mv.col cfg.aiPlayer)).2
          mv.row mv.col CellType.EMPTY)
        (XQ.qmax s (recur (setCell b mv.row mv.col cfg.aiPlayer)).1.score)
        (if XQ.blt s (recur (setCell b mv.row mv.col cfg.aiPlayer)).1.score = true
         then some (Move.mk mv.row mv.col
           (XQ.qmax s (recur (setCell b mv.row mv.col cfg.aiPlayer)).1.score))
         else bm) := by
  rw [mmMaxLoop]
  simp only [XQ.ite_blt_eq_qmax]

theorem mmMinLoop_cons (cfg : AIConfig)
    (recur : Board → EvaluationResult × Board)
    (mv : Move) (rest : List Move) (b : Board) (s : XQ) (bm : Option Move) :
    mmMinLoop cfg recur (mv :: rest) b s bm =
      mmMinLoop cfg recur rest
        (setCell (recur (setCell b mv.row mv.col cfg.humanPlayer)).2
          mv.row mv.col CellType.EMPTY)
        (XQ.qmin s (recur (setCell b mv.row mv.col cfg.humanPlayer)).1.score)
        (if XQ.blt (recur (setCell b mv.row mv.col cfg.humanPlayer)).1.score s = true
         then some (Move.mk mv.row mv.col
           (XQ.qmin s (recur (setCell b mv.row mv.col cfg.humanPlayer)).1.score))
         else bm) := by
  rw [mmMinLoop]
  simp only [XQ.ite_blt_eq_qmin]

/-! ## Fail-soft relation between alpha-beta and unpruned minimax -/

theorem abMaxLoop_failsoft (cfg : AIConfig) (d : Nat)
    (hIH : ∀ b2 alpha2 beta2, XQ.blt alpha2 beta2 = true →
      FailSoft cfg d b2 alpha2 beta2 false) :
    ∀ (ms : List Move) (b : Board) (al0 beta a s sM : XQ) (bm bmM : Option Move),
      (∀ mv ∈ ms, b mv.row mv.col = CellType.EMPTY) →
      a = XQ.qmax al0 s →
      XQ.blt a beta = true →
      (XQ.ble s al0 = true → XQ.ble sM s = true) →
      (XQ.blt al0 s = true → sM = s) →
      (XQ.ble (abMaxLoop cfg (fun b2 a2 be2 => alphaBeta cfg d b2 a2 be2 false)
          ms b a beta s bm).1.score al0 = true →
        XQ.ble (mmMaxLoop cfg (fun b2 => minimax cfg d b2 false) ms b sM bmM).1.score
          (abMaxLoop cfg (fun b2 a2 be2 => alphaBeta cfg d b2 a2 be2 false)
            ms b a beta s bm).1.score = true) ∧
      (XQ.blt al0 (abMaxLoop cfg (fun b2 a2 be2 => alphaBeta cfg d b2 a2 be2 false)
          ms b a beta s bm).1.score = true ∧
        XQ.blt (abMaxLoop cfg (fun b2 a2 be2 => alphaBeta cfg d b2 a2 be2 false)
          ms b a beta s bm).1.score beta = true →
        (mmMaxLoop cfg (fun b2 => minimax cfg d b2 false) ms b sM bmM).1.score =
          (abMaxLoop cfg (fun b2 a2 be2 => alphaBeta cfg d b2 a2 be2 false)
            ms b a beta s bm).1.score) ∧
      (XQ.ble beta (abMaxLoop cfg (fun b2 a2 be2 => alphaBeta cfg d b2 a2 be2 false)
          ms b a beta s bm).1.score = true →
        XQ.ble (abMaxLoop cfg (fun b2 a2 be2 => alphaBeta cfg d b2 a2 be2 false)
            ms b a beta s bm).1.score
          (mmMaxLoop cfg (fun b2 => minimax cfg d b2 false) ms b sM bmM).1.score = true) := by
  intro ms
  induction ms with
  | nil =>
      intro b al0 beta a s sM bm bmM hemp ha hab inv1 inv2
      refine ⟨?_, ?_, ?_⟩
      · intro h
        exact inv1 h
      · intro h
        exact inv2 h.1
      · intro h
        exfalso
        have hsa : XQ.ble s a = true := ha ▸ XQ.ble_qmax_right al0 s
        have : XQ.blt s beta = true := XQ.blt_of_ble_of_blt hsa hab
        exact (XQ.blt_iff.mp this) h
  | cons mv rest ih =>
      intro b al0 beta a s sM bm bmM hemp ha hab inv1 inv2
      have hempHead : b mv.row mv.col = CellType.EMPTY := hemp mv (List.mem_cons_self mv rest)
      have hempRest : ∀ x ∈ rest, b x.row x.col = CellType.EMPTY :=
        fun x hx => hemp x (List.mem_cons_of_mem mv hx)
      -- the two child calls on the placed board
      set pb := setCell b mv.row mv.col cfg.aiPlayer with hpb
      have hboard : (alphaBeta cfg d pb a beta false).2 = pb := alphaBeta_board cfg d pb a beta false
      have hboardM : (minimax cfg d pb false).2 = pb := minimax_board cfg d pb false
      have hrestore : setCell (alphaBeta cfg d pb a beta false).2 mv.row mv.col
          CellType.EMPTY = b := by
        rw [hboard, hpb]
        exact setCell_restore hempHead
      have hrestoreM : setCell (minimax cfg d pb false).2 mv.row mv.col
          CellType.EMPTY = b := by
        rw [hboardM, hpb]
        exact setCell_restore hempHead
      set w := (alphaBeta cfg d pb a beta false).1.score with hw
      set mc := (minimax cfg d pb false).1.score with hmc
      have hFS : FailSoft cfg d pb a beta false := hIH pb a beta hab
      have hal0a : XQ.ble al0 a = true := ha ▸ XQ.ble_qmax_left al0 s
      have hsa : XQ.ble s a = true := ha ▸ XQ.ble_qmax_right al0 s
      rw [abMaxLoop_cons, mmMaxLoop_cons]
      rw [hrestore, hrestoreM]
      by_cases hbreak : XQ.ble beta (XQ.qmax a w) = true
      · -- pruning break: the value is the failing-high child value
        rw [if_pos hbreak]
        have hbw : XQ.ble beta w = true := by
          rcases XQ.qmax_eq_left_or_right a w with hq | hq
          · rw [hq] at hbreak
            exact absurd hbreak (XQ.blt_iff.mp hab)
          · rw [hq] at hbreak
            exact hbreak
        have hsw : XQ.ble s w = true :=
          XQ.ble_of_blt (XQ.blt_of_ble_of_blt hsa (XQ.blt_of_blt_of_ble hab hbw))
        have hv : XQ.qmax s w = w := XQ.qmax_eq_right hsw
        rw [hv]
        have hwal0 : XQ.blt al0 w = true :=
          XQ.blt_of_ble_of_blt hal0a (XQ.blt_of_blt_of_ble hab hbw)
        refine ⟨?_, ?_, ?_⟩
        · intro h
          exact absurd h (XQ.blt_iff.mp hwal0)
        · intro h
          exact absurd hbw (XQ.blt_iff.mp h.2)
        · intro _
          have h1 : XQ.ble w mc = true := hFS.2.2 hbw
          have h2 : XQ.ble mc (mmMaxLoop cfg (fun b2 => minimax cfg d b2 false)
              (mv :: rest) b sM bmM).1.score = true := by
            have := @mmMaxLoop_ge_child cfg (fun b2 => minimax cfg d b2 false)
              (fun b2 => minimax_board cfg d b2 false) (mv :: rest) b sM bmM mv hemp
              (List.mem_cons_self mv rest)
            exact this
          rw [mmMaxLoop_cons, hrestoreM] at h2
          exact XQ.ble_trans h1 h2
      · -- no break: continue the loop with the updated invariants
        rw [if_neg hbreak]
        have hab2 : XQ.blt (XQ.qmax a w) beta = true :=
          XQ.blt_of_ble_eq_false (Bool.not_eq_true _ ▸ eq_false_of_ne_true hbreak)
        have ha2 : XQ.qmax a w = XQ.qmax al0 (XQ.qmax s w) := by
          rw [ha, XQ.qmax_assoc]
        -- new invariant 1
        have inv1new : XQ.ble (XQ.qmax s w) al0 = true →
            XQ.ble (XQ.qmax sM mc) (XQ.qmax s w) = true := by
          intro h
          have hs0 : XQ.ble s al0 = true := XQ.ble_trans (XQ.ble_qmax_left s w) h
          have hw0 : XQ.ble w al0 = true := XQ.ble_trans (XQ.ble_qmax_right s w) h
          have hwa : XQ.ble w a = true := XQ.ble_trans hw0 hal0a
          have hmcw : XQ.ble mc w = true := hFS.1 hwa
          exact XQ.qmax_ble
            (XQ.ble_trans (inv1 hs0) (XQ.ble_qmax_left s w))
            (XQ.ble_trans hmcw (XQ.ble_qmax_right s w))
        -- new invariant 2
        have inv2new : XQ.blt al0 (XQ.qmax s w) = true → XQ.qmax sM mc = XQ.qmax s w := by
          intro h
          rcases Bool.eq_false_or_eq_true (XQ.ble w s) with hws | hws
          · -- the child did not beat the running maximum
            have hvs : XQ.qmax s w = s := XQ.qmax_eq_left hws
            rw [hvs] at h ⊢
            have hsMs : sM = s := inv2 h
            have hmcs : XQ.ble mc s = true := by
              have hwa : XQ.ble w a = true := XQ.ble_trans hws hsa
              exact XQ.ble_trans (hFS.1 hwa) hws
            rw [hsMs]
            exact XQ.qmax_eq_left hmcs
          · -- the child strictly improved: its value is exact
            have hsw : XQ.blt s w = true := XQ.blt_of_ble_eq_false hws
            have hsw2 : XQ.ble s w = true := XQ.ble_of_blt hsw
            have hvw : XQ.qmax s w = w := XQ.qmax_eq_right hsw2
            rw [hvw] at h ⊢
            have hwbeta : XQ.blt w beta = true :=
              XQ.blt_of_ble_of_blt (XQ.ble_qmax_right a w) hab2
            have haw : XQ.blt a w = true := by
              rcases XQ.qmax_eq_left_or_right al0 s with hq | hq
              · rw [ha, hq]
                exact h
              · rw [ha, hq]
                exact hsw
            have hmcval : mc = w := hFS.2.1 ⟨haw, hwbeta⟩
            have hsMw : XQ.ble sM w = true := by
              rcases Bool.eq_false_or_eq_true (XQ.blt al0 s) with hx | hx
              · rw [inv2 hx]
                exact hsw2
              · have hs0 : XQ.ble s al0 = true := XQ.ble_of_blt_eq_false hx
                exact XQ.ble_trans (XQ.ble_trans (inv1 hs0) hs0)
                  (XQ.ble_of_blt (XQ.blt_of_ble_of_blt hal0a haw))
            rw [hmcval]
            exact XQ.qmax_eq_right hsMw
        exact ih b al0 beta (XQ.qmax a w) (XQ.qmax s w) (XQ.qmax sM mc) _ _
          hempRest ha2 hab2 inv1new inv2new

namespace XQ

theorem qmin_negInf_left (a : XQ) : qmin negInf a = negInf := by
  cases a <;> simp [qmin, ble]

theorem qmin_negInf_right2 (a : XQ) : qmin a negInf = negInf := by
  cases a <;> simp [qmin, ble]

theorem qmin_posInf_left (a : XQ) : qmin posInf a = a := by
  cases a <;> simp [qmin, ble]

theorem qmin_fin_fin (a b : ℚ) : qmin (fin a) (fin b) = fin (min a b) := by
  rw [min_def, qmin]
  by_cases h : a ≤ b
  · rcases Bool.eq_false_or_eq_true (ble (fin b) (fin a)) with h2 | h2
    · have := ble_fin_fin.mp h2
      have hab : a = b := le_antisymm h this
      simp [h2, hab]
    · simp [h2, h]
  · have h2 : ble (fin b) (fin a) = true := ble_fin_fin.mpr (le_of_not_le h)
    simp [h2, h]

theorem qmin_assoc (a b c : XQ) : qmin (qmin a b) c = qmin a (qmin b c) := by
  cases a <;> cases b <;> cases c <;>
    simp only [qmin_negInf_left, qmin_negInf_right2, qmin_posInf_left, qmin_posInf_right,
      qmin_fin_fin]
  exact congrArg fin (min_assoc ..)

end XQ

theorem abMinLoop_failsoft (cfg : AIConfig) (d : Nat)
    (hIH : ∀ b2 alpha2 beta2, XQ.blt alpha2 beta2 = true →
      FailSoft cfg d b2 alpha2 beta2 true) :
    ∀ (ms : List Move) (b : Board) (alpha be0 be s sM : XQ) (bm bmM : Option Move),
      (∀ mv ∈ ms, b mv.row mv.col = CellType.EMPTY) →
      be = XQ.qmin be0 s →
      XQ.blt alpha be = true →
      (XQ.ble be0 s = true → XQ.ble s sM = true) →
      (XQ.blt s be0 = true → sM = s) →
      (XQ.ble (abMinLoop cfg (fun b2 a2 be2 => alphaBeta cfg d b2 a2 be2 true)
          ms b alpha be s bm).1.score alpha = true →
        XQ.ble (mmMinLoop cfg (fun b2 => minimax cfg d b2 true) ms b sM bmM).1.score
          (abMinLoop cfg (fun b2 a2 be2 => alphaBeta cfg d b2 a2 be2 true)
            ms b alpha be s bm).1.score = true) ∧
      (XQ.blt alpha (abMinLoop cfg (fun b2 a2 be2 => alphaBeta cfg d b2 a2 be2 true)
          ms b alpha be s bm).1.score = true ∧
        XQ.blt (abMinLoop cfg (fun b2 a2 be2 => alphaBeta cfg d b2 a2 be2 true)
          ms b alpha be s bm).1.score be0 = true →
        (mmMinLoop cfg (fun b2 => minimax cfg d b2 true) ms b sM bmM).1.score =
          (abMinLoop cfg (fun b2 a2 be2 => alphaBeta cfg d b2 a2 be2 true)
            ms b alpha be s bm).1.score) ∧
      (XQ.ble be0 (abMinLoop cfg (fun b2 a2 be2 => alphaBeta cfg d b2 a2 be2 true)
          ms b alpha be s bm).1.score = true →
        XQ.ble (abMinLoop cfg (fun b2 a2 be2 => alphaBeta cfg d b2 a2 be2 true)
            ms b alpha be s bm).1.score
          (mmMinLoop cfg (fun b2 => minimax cfg d b2 true) ms b sM bmM).1.score = true) := by
  intro ms
  induction ms with
  | nil =>
      intro b alpha be0 be s sM bm bmM hemp hbe halb inv1 inv2
      refine ⟨?_, ?_, ?_⟩
      · intro h
        exfalso
        have hbes : XQ.ble be s = true := hbe ▸ XQ.ble_qmin_right be0 s
        have : XQ.blt alpha s = true := XQ.blt_of_blt_of_ble halb hbes
        exact (XQ.blt_iff.mp this) h
      · intro h
        exact (inv2 h.2).symm ▸ rfl
      · intro h
        exact inv1 h
  | cons mv rest ih =>
      intro b alpha be0 be s sM bm bmM hemp hbe halb inv1 inv2
      have hempHead : b mv.row mv.col = CellType.EMPTY := hemp mv (List.mem_cons_self mv rest)
      have hempRest : ∀ x ∈ rest, b x.row x.col = CellType.EMPTY :=
        fun x hx => hemp x (List.mem_cons_of_mem mv hx)
      set pb := setCell b mv.row mv.col cfg.humanPlayer with hpb
      have hboard : (alphaBeta cfg d pb alpha be true).2 = pb :=
        alphaBeta_board cfg d pb alpha be true
      have hboardM : (minimax cfg d pb true).2 = pb := minimax_board cfg d pb true
      have hrestore : setCell (alphaBeta cfg d pb alpha be true).2 mv.row mv.col
          CellType.EMPTY = b := by
        rw [hboard, hpb]
        exact setCell_restore hempHead
      have hrestoreM : setCell (minimax cfg d pb true).2 mv.row mv.col
          CellType.EMPTY = b := by
        rw [hboardM, hpb]
        exact setCell_restore hempHead
      set w := (alphaBeta cfg d pb alpha be true).1.score with hw
      set mc := (minimax cfg d pb true).1.score with hmc
      have hFS : FailSoft cfg d pb alpha be true := hIH pb alpha be halb
      have hbebe0 : XQ.ble be be0 = true := hbe ▸ XQ.ble_qmin_left be0 s
      have hbes : XQ.ble be s = true := hbe ▸ XQ.ble_qmin_right be0 s
      rw [abMinLoop_cons, mmMinLoop_cons]
      rw [hrestore, hrestoreM]
      by_cases hbreak : XQ.ble (XQ.qmin be w) alpha = true
      · rw [if_pos hbreak]
        have hwa : XQ.ble w alpha = true := by
          rcases XQ.qmin_eq_left_or_right be w with hq | hq
          · rw [hq] at hbreak
            exact absurd hbreak (XQ.blt_iff.mp halb)
          · rw [hq] at hbreak
            exact hbreak
        have hws : XQ.ble w s = true :=
          XQ.ble_of_blt (XQ.blt_of_ble_of_blt hwa (XQ.blt_of_blt_of_ble halb hbes))
        have hv : XQ.qmin s w = w := XQ.qmin_eq_right hws
        rw [hv]
        have hwbe0 : XQ.blt w be0 = true :=
          XQ.blt_of_ble_of_blt hwa (XQ.blt_of_blt_of_ble halb hbebe0)
        refine ⟨?_, ?_, ?_⟩
        · intro _
          have h1 : XQ.ble mc w = true := hFS.1 hwa
          have h2 : XQ.ble (mmMinLoop cfg (fun b2 => minimax cfg d b2 true)
              (mv :: rest) b sM bmM).1.score mc = true := by
            have := @mmMinLoop_le_child cfg (fun b2 => minimax cfg d b2 true)
              (fun b2 => minimax_board cfg d b2 true) (mv :: rest) b sM bmM mv hemp
              (List.mem_cons_self mv rest)
            exact this
          rw [mmMinLoop_cons, hrestoreM] at h2
          exact XQ.ble_trans h2 h1
        · intro h
          exact absurd hwa (XQ.blt_iff.mp h.1)
        · intro h
          exact absurd h (XQ.blt_iff.mp hwbe0)
      · rw [if_neg hbreak]
        have halb2 : XQ.blt alpha (XQ.qmin be w) = true :=
          XQ.blt_of_ble_eq_false (Bool.not_eq_true _ ▸ eq_false_of_ne_true hbreak)
        have hbe2 : XQ.qmin be w = XQ.qmin be0 (XQ.qmin s w) := by
          rw [hbe, XQ.qmin_assoc]
        have inv1new : XQ.ble be0 (XQ.qmin s w) = true →
            XQ.ble (XQ.qmin s w) (XQ.qmin sM mc) = true := by
          intro h
          have hs0 : XQ.ble be0 s = true := XQ.ble_trans h (XQ.ble_qmin_left s w)
          have hw0 : XQ.ble be0 w = true := XQ.ble_trans h (XQ.ble_qmin_right s w)
          have hbw : XQ.ble be w = true := XQ.ble_trans hbebe0 hw0
          have hwmc : XQ.ble w mc = true := hFS.2.2 hbw
          exact XQ.qmin_ble
            (XQ.ble_trans (XQ.ble_qmin_left s w) (inv1 hs0))
            (XQ.ble_trans (XQ.ble_qmin_right s w) hwmc)
        have inv2new : XQ.blt (XQ.qmin s w) be0 = true → XQ.qmin sM mc = XQ.qmin s w := by
          intro h
          rcases Bool.eq_false_or_eq_true (XQ.ble s w) with hsw | hsw
          · -- the child did not improve the running minimum
            have hvs : XQ.qmin s w = s := XQ.qmin_eq_left hsw
            rw [hvs] at h ⊢
            have hsMs : sM = s := inv2 h
            have hbw : XQ.ble be w = true := XQ.ble_trans hbes hsw
            have hsmc : XQ.ble s mc = true := XQ.ble_trans hsw (hFS.2.2 hbw)
            rw [hsMs]
            exact XQ.qmin_eq_left hsmc
          · -- the child strictly improved: its value is exact
            have hws0 : XQ.blt w s = true := XQ.blt_of_ble_eq_false hsw
            have hws : XQ.ble w s = true := XQ.ble_of_blt hws0
            have hvw : XQ.qmin s w = w := XQ.qmin_eq_right hws
            rw [hvw] at h ⊢
            have halw : XQ.blt alpha w = true :=
              XQ.blt_of_blt_of_ble halb2 (XQ.ble_qmin_right be w)
            have hwbe : XQ.blt w be = true := by
              rcases XQ.qmin_eq_left_or_right be0 s with hq | hq
              · rw [hbe, hq]
                exact h
              · rw [hbe, hq]
                exact hws0
            have hmcval : mc = w := hFS.2.1 ⟨halw, hwbe⟩
            have hwsM : XQ.ble w sM = true := by
              rcases Bool.eq_false_or_eq_true (XQ.blt s be0) with hx | hx
              · rw [inv2 hx]
                exact hws
              · have hs0 : XQ.ble be0 s = true := XQ.ble_of_blt_eq_false hx
                exact XQ.ble_trans hws (inv1 hs0)
            rw [hmcval]
            exact XQ.qmin_eq_right hwsM
        exact ih b alpha be0 (XQ.qmin be w) (XQ.qmin s w) (XQ.qmin sM mc) _ _
          hempRest hbe2 halb2 inv1new inv2new

theorem failSoft (cfg : AIConfig) :
    ∀ (d : Nat) (b : Board) (alpha beta : XQ) (isMax : Bool),
      XQ.blt alpha beta = true → FailSoft cfg d b alpha beta isMax := by
  intro d
  induction d with
  | zero =>
      intro b alpha beta isMax _
      exact ⟨fun _ => XQ.ble_refl _, fun _ => rfl, fun _ => XQ.ble_refl _⟩
  | succ d ih =>
      intro b alpha beta isMax halb
      by_cases hgo : isGameOver b = true
      · unfold FailSoft abS mmS
        rw [alphaBeta, minimax, if_pos hgo, if_pos hgo]
        exact ⟨fun _ => XQ.ble_refl _, fun _ => rfl, fun _ => XQ.ble_refl _⟩
      · unfold FailSoft abS mmS
        rw [alphaBeta, minimax, if_neg hgo, if_neg hgo]
        cases isMax with
        | true =>
            simp only [if_true]
            have := abMaxLoop_failsoft cfg d (fun b2 a2 be2 h => ih b2 a2 be2 false h)
              (generateMoves cfg b) b alpha beta alpha XQ.negInf XQ.negInf none none
              (fun mv hmv => (generateMoves_mem_prop mv hmv).2.2)
              (XQ.qmax_negInf_right alpha).symm halb
              (fun _ => XQ.ble_refl XQ.negInf)
              (fun h => absurd h (by rw [XQ.blt_negInf_right]; simp))
            exact this
        | false =>
            simp only [Bool.false_eq_true, if_false, reduceIte]
            have := abMinLoop_failsoft cfg d (fun b2 a2 be2 h => ih b2 a2 be2 true h)
              (generateMoves cfg b) b alpha beta beta XQ.posInf XQ.posInf none none
              (fun mv hmv => (generateMoves_mem_prop mv hmv).2.2)
              (XQ.qmin_posInf_right beta).symm halb
              (fun _ => XQ.ble_refl XQ.posInf)
              (fun h => absurd h (by rw [XQ.blt_posInf_left]; simp))
            exact this

/-! ## At the full window the pruned and unpruned searches coincide -/

theorem qmax_ne_posInf {a b : XQ} (ha : a ≠ XQ.posInf) (hb : b ≠ XQ.posInf) :
    XQ.qmax a b ≠ XQ.posInf := by
  rcases XQ.qmax_eq_left_or_right a b with h | h <;> rw [h] <;> assumption

theorem qmin_ne_negInf {a b : XQ} (ha : a ≠ XQ.negInf) (hb : b ≠ XQ.negInf) :
    XQ.qmin a b ≠ XQ.negInf := by
  rcases XQ.qmin_eq_left_or_right a b with h | h <;> rw [h] <;> assumption

theorem ble_posInf_ne {a : XQ} (h : a ≠ XQ.posInf) : XQ.ble XQ.posInf a = false := by
  rcases Bool.eq_false_or_eq_true (XQ.ble XQ.posInf a) with h2 | h2
  · exact absurd (XQ.ble_posInf_left h2) h
  · exact h2

theorem ble_negInf_ne {a : XQ} (h : a ≠ XQ.negInf) : XQ.ble a XQ.negInf = false := by
  rcases Bool.eq_false_or_eq_true (XQ.ble a XQ.negInf) with h2 | h2
  · exact absurd (XQ.ble_negInf_right h2) h
  · exact h2

theorem abMaxLoop_root (cfg : AIConfig) (d : Nat)
    (hIH : ∀ b2 alpha2 beta2, XQ.blt alpha2 beta2 = true →
      FailSoft cfg d b2 alpha2 beta2 false)
    (hfin : ∀ b2 a2 be2, ∃ q, (alphaBeta cfg d b2 a2 be2 false).1.score = XQ.fin q) :
    ∀ (ms : List Move) (b : Board) (s : XQ) (bm : Option Move),
      (∀ mv ∈ ms, b mv.row mv.col = CellType.EMPTY) →
      s ≠ XQ.posInf →
      (abMaxLoop cfg (fun b2 a2 be2 => alphaBeta cfg d b2 a2 be2 false)
        ms b s XQ.posInf s bm).1 =
      (mmMaxLoop cfg (fun b2 => minimax cfg d b2 false) ms b s bm).1 := by
  intro ms
  induction ms with
  | nil => intro b s bm _ _; rfl
  | cons mv rest ih =>
      intro b s bm hemp hs
      have hempHead : b mv.row mv.col = CellType.EMPTY := hemp mv (List.mem_cons_self mv rest)
      have hempRest : ∀ x ∈ rest, b x.row x.col = CellType.EMPTY :=
        fun x hx => hemp x (List.mem_cons_of_mem mv hx)
      set pb := setCell b mv.row mv.col cfg.aiPlayer with hpb
      have hrestore : setCell (alphaBeta cfg d pb s XQ.posInf false).2 mv.row mv.col
          CellType.EMPTY = b := by
        rw [alphaBeta_board, hpb]
        exact setCell_restore hempHead
      have hrestoreM : setCell (minimax cfg d pb false).2 mv.row mv.col
          CellType.EMPTY = b := by
        rw [minimax_board, hpb]
        exact setCell_restore hempHead
      set w := (alphaBeta cfg d pb s XQ.posInf false).1.score with hwdef
      set mc := (minimax cfg d pb false).1.score with hmcdef
      rcases hfin pb s XQ.posInf with ⟨qw, hqw⟩
      have hwfin : w ≠ XQ.posInf := by
        rw [← hwdef] at hqw
        rw [hqw]
        exact XQ.fin_ne_posInf qw
      have hFS : FailSoft cfg d pb s XQ.posInf false := by
        apply hIH
        unfold XQ.blt
        rw [ble_posInf_ne hs]
        rfl
      have hnobreak : XQ.ble XQ.posInf (XQ.qmax s w) = false :=
        ble_posInf_ne (qmax_ne_posInf hs hwfin)
      rw [abMaxLoop_cons, mmMaxLoop_cons]
      rw [hrestore, hrestoreM]
      rw [if_neg (by rw [← hwdef, hnobreak]; simp)]
      have hs2 : XQ.qmax s w ≠ XQ.posInf := qmax_ne_posInf hs hwfin
      rcases Bool.eq_false_or_eq_true (XQ.ble w s) with hws | hws
      · -- no improvement: both sides keep their accumulators
        have hblt : XQ.blt s w = false := by
          unfold XQ.blt
          rw [hws]
          rfl
        have hmcw : XQ.ble mc w = true := hFS.1 hws
        have hmcs : XQ.ble mc s = true := XQ.ble_trans hmcw hws
        have hbltM : XQ.blt s mc = false := by
          unfold XQ.blt
          rw [hmcs]
          rfl
        have hqs : XQ.qmax s w = s := XQ.qmax_eq_left hws
        have hqsM : XQ.qmax s mc = s := XQ.qmax_eq_left hmcs
        rw [← hwdef, ← hmcdef, hblt, hbltM, hqs, hqsM]
        simp only [Bool.false_eq_true, reduceIte]
        exact ih b s bm hempRest hs
      · -- strict improvement: the child value is exact and both sides update
        have hsw : XQ.blt s w = true := XQ.blt_of_ble_eq_false hws
        have hwinterior : XQ.blt w XQ.posInf = true := by
          unfold XQ.blt
          rw [ble_posInf_ne hwfin]
          rfl
        have hmcw : mc = w := hFS.2.1 ⟨hsw, hwinterior⟩
        have hqw2 : XQ.qmax s w = w := XQ.qmax_eq_right (XQ.ble_of_blt hsw)
        rw [← hwdef, ← hmcdef, hmcw, hsw, hqw2]
        simp only [if_true]
        exact ih b w _ hempRest hwfin

theorem abMinLoop_root (cfg : AIConfig) (d : Nat)
    (hIH : ∀ b2 alpha2 beta2, XQ.blt alpha2 beta2 = true →
      FailSoft cfg d b2 alpha2 beta2 true)
    (hfin : ∀ b2 a2 be2, ∃ q, (alphaBeta cfg d b2 a2 be2 true).1.score = XQ.fin q) :
    ∀ (ms : List Move) (b : Board) (s : XQ) (bm : Option Move),
      (∀ mv ∈ ms, b mv.row mv.col = CellType.EMPTY) →
      s ≠ XQ.negInf →
      (abMinLoop cfg (fun b2 a2 be2 => alphaBeta cfg d b2 a2 be2 true)
        ms b XQ.negInf s s bm).1 =
      (mmMinLoop cfg (fun b2 => minimax cfg d b2 true) ms b s bm).1 := by
  intro ms
  induction ms with
  | nil => intro b s bm _ _; rfl
  | cons mv rest ih =>
      intro b s bm hemp hs
      have hempHead : b mv.row mv.col = CellType.EMPTY := hemp mv (List.mem_cons_self mv rest)
      have hempRest : ∀ x ∈ rest, b x.row x.col = CellType.EMPTY :=
        fun x hx => hemp x (List.mem_cons_of_mem mv hx)
      set pb := setCell b mv.row mv.col cfg.humanPlayer with hpb
      have hrestore : setCell (alphaBeta cfg d pb XQ.negInf s true).2 mv.row mv.col
          CellType.EMPTY = b := by
        rw [alphaBeta_board, hpb]
        exact setCell_restore hempHead
      have hrestoreM : setCell (minimax cfg d pb true).2 mv.row mv.col
          CellType.EMPTY = b := by
        rw [minimax_board, hpb]
        exact setCell_restore hempHead
      set w := (alphaBeta cfg d pb XQ.negInf s true).1.score with hwdef
      set mc := (minimax cfg d pb true).1.score with hmcdef
      rcases hfin pb XQ.negInf s with ⟨qw, hqw⟩
      have hwfin : w ≠ XQ.negInf := by
        rw [← hwdef] at hqw
        rw [hqw]
        exact XQ.fin_ne_negInf qw
      have hFS : FailSoft cfg d pb XQ.negInf s true := by
        apply hIH
        unfold XQ.blt
        rw [ble_negInf_ne hs]
        rfl
      have hnobreak : XQ.ble (XQ.qmin s w) XQ.negInf = false :=
        ble_negInf_ne (qmin_ne_negInf hs hwfin)
      rw [abMinLoop_cons, mmMinLoop_cons]
      rw [hrestore, hrestoreM]
      rw [if_neg (by rw [← hwdef, hnobreak]; simp)]
      rcases Bool.eq_false_or_eq_true (XQ.ble s w) with hsw | hsw
      · -- no improvement: both sides keep their accumulators
        have hblt : XQ.blt w s = false := by
          unfold XQ.blt
          rw [hsw]
          rfl
        have hwmc : XQ.ble w mc = true := hFS.2.2 hsw
        have hsmc : XQ.ble s mc = true := XQ.ble_trans hsw hwmc
        have hbltM : XQ.blt mc s = false := by
          unfold XQ.blt
          rw [hsmc]
          rfl
        have hqs : XQ.qmin s w = s := XQ.qmin_eq_left hsw
        have hqsM : XQ.qmin s mc = s := XQ.qmin_eq_left hsmc
        rw [← hwdef, ← hmcdef, hblt, hbltM, hqs, hqsM]
        simp only [Bool.false_eq_true, reduceIte]
        exact ih b s bm hempRest hs
      · -- strict improvement
        have hws : XQ.blt w s = true := XQ.blt_of_ble_eq_false hsw
        have hwinterior : XQ.blt XQ.negInf w = true := by
          unfold XQ.blt
          rw [ble_negInf_ne hwfin]
          rfl
        have hmcw : mc = w := hFS.2.1 ⟨hwinterior, hws⟩
        have hqw2 : XQ.qmin s w = w := XQ.qmin_eq_right (XQ.ble_of_blt hws)
        rw [← hwdef, ← hmcdef, hmcw, hws, hqw2]
        simp only [if_true]
        exact ih b w _ hempRest hwfin

/-- At the full window, alpha-beta and the unpruned minimax agree on the
whole evaluation result (score and best move) and on the final board. -/
theorem alphaBeta_eq_minimax (cfg : AIConfig) :
    ∀ (d : Nat) (b : Board) (isMax : Bool),
      alphaBeta cfg d b XQ.negInf XQ.posInf isMax = minimax cfg d b isMax := by
  intro d b isMax
  cases d with
  | zero => rfl
  | succ d =>
      by_cases hgo : isGameOver b = true
      · rw [alphaBeta, minimax, if_pos hgo, if_pos hgo]
      · rw [alphaBeta, minimax, if_neg hgo, if_neg hgo]
        have hemp : ∀ mv ∈ generateMoves cfg b, b mv.row mv.col = CellType.EMPTY :=
          fun mv hmv => (generateMoves_mem_prop mv hmv).2.2
        cases isMax with
        | true =>
            simp only [if_true]
            have h1 := abMaxLoop_root cfg d
              (fun b2 a2 be2 h => failSoft cfg d b2 a2 be2 false h)
              (fun b2 a2 be2 => alphaBeta_fin cfg d b2 a2 be2 false)
              (generateMoves cfg b) b XQ.negInf none hemp (by simp)
            have h2 : (abMaxLoop cfg (fun b2 a2 be2 => alphaBeta cfg d b2 a2 be2 false)
                (generateMoves cfg b) b XQ.negInf XQ.posInf XQ.negInf none).2 = b :=
              abMaxLoop_board (fun b2 a2 be2 => alphaBeta_board cfg d b2 a2 be2 false)
                _ b _ _ _ _ hemp
            have h3 : (mmMaxLoop cfg (fun b2 => minimax cfg d b2 false)
                (generateMoves cfg b) b XQ.negInf none).2 = b :=
              mmMaxLoop_board (fun b2 => minimax_board cfg d b2 false) _ b _ _ hemp
            exact Prod.ext h1 (h2.trans h3.symm)
        | false =>
            simp only [Bool.false_eq_true, reduceIte]
            have h1 := abMinLoop_root cfg d
              (fun b2 a2 be2 h => failSoft cfg d b2 a2 be2 true h)
              (fun b2 a2 be2 => alphaBeta_fin cfg d b2 a2 be2 true)
              (generateMoves cfg b) b XQ.posInf none hemp (by simp)
            have h2 : (abMinLoop cfg (fun b2 a2 be2 => alphaBeta cfg d b2 a2 be2 true)
                (generateMoves cfg b) b XQ.negInf XQ.posInf XQ.posInf none).2 = b :=
              abMinLoop_board (fun b2 a2 be2 => alphaBeta_board cfg d b2 a2 be2 true)
                _ b _ _ _ _ hemp
            have h3 : (mmMinLoop cfg (fun b2 => minimax cfg d b2 true)
                (generateMoves cfg b) b XQ.posInf none).2 = b :=
              mmMinLoop_board (fun b2 => minimax_board cfg d b2 true) _ b _ _ hemp
            exact Prod.ext h1 (h2.trans h3.symm)

/-! ## The classifier agrees with the amended priority chain -/

set_option maxHeartbeats 2000000 in
theorem chain_equiv (contig stones lH rH enemy : Nat) :
    (if 5 ≤ contig then ThreatType.THREAT_FIVE
     else if contig = 4 ∧ 0 < rH ∧ 0 < lH then ThreatType.THREAT_STRAIGHT_FOUR
     else if contig = 4 ∧ (0 < rH ∨ 0 < lH) then ThreatType.THREAT_FOUR
     else if contig = 3 ∧ 0 < rH ∧ 0 < lH then ThreatType.THREAT_THREE
     else if 4 ≤ stones ∧ (0 < rH ∨ 0 < lH) ∧ 5 ≤ lH + rH + stones then
       ThreatType.THREAT_FOUR_BROKEN
     else if 3 ≤ stones ∧ (0 < rH ∨ 0 < lH) ∧ 5 ≤ lH + rH + stones then
       ThreatType.THREAT_THREE_BROKEN
     else if 2 ≤ contig ∧ (0 < rH ∨ 0 < lH) ∧ 4 ≤ lH + rH + stones then
       ThreatType.THREAT_TWO
     else if 1 ≤ contig ∧ (rH = 0 ∨ lH = 0) ∧ 0 < enemy then
       ThreatType.THREAT_NEAR_ENEMY
     else ThreatType.THREAT_NOTHING) =
      amendedThreatChain contig stones lH rH enemy := by
  unfold amendedThreatChain
  split_ifs <;> first | rfl | (exfalso; omega)



theorem classify_eq_amendedChain (row : List CellType) (player : CellType) :
    calculateThreatInOneDimension row player = amendedClassify row player := by
  unfold calculateThreatInOneDimension amendedClassify lineMetrics
  simp only [NEED_TO_WIN]
  exact chain_equiv ..

/-! ## The evaluator computes the claimed closed-form score -/

theorem foldl_if_add {α : Type} (P : α → Prop) [DecidablePred P] (f : α → ℤ) :
    ∀ (l : List α) (init : ℤ),
      l.foldl (fun acc x => if P x then acc + f x else acc) init
        = init + ((l.filter fun x => P x).map f).sum := by
  intro l
  induction l with
  | nil => intro init; simp
  | cons a t ih =>
      intro init
      by_cases h : P a
      · have hd : (decide (P a)) = true := decide_eq_true h
        rw [List.foldl_cons, if_pos h, ih, List.filter_cons]
        simp only [hd, if_true, List.map_cons, List.sum_cons]
        ring
      · have hd : (decide (P a)) = false := decide_eq_false h
        rw [List.foldl_cons, if_neg h, ih, List.filter_cons]
        simp only [hd, Bool.false_eq_true, reduceIte]

theorem potentialSum_eq (b : Board) (player : CellType) :
    potentialSum b player = emptyCellScoreSum b player := by
  unfold potentialSum emptyCellScoreSum
  rw [foldl_if_add (fun ij => b ij.1 ij.2 = CellType.EMPTY)
    (fun ij => calculateScoreAt b player ij.1 ij.2) pairs19 0]
  simp

theorem evaluateBoard_formula (cfg : AIConfig) (b : Board) :
    evaluateBoard cfg b true =
      (3 / 2 : ℚ) * (emptyCellScoreSum b cfg.aiPlayer : ℚ)
        - (emptyCellScoreSum b cfg.humanPlayer : ℚ)
        + ((if (findImmediateThreat b cfg.aiPlayer).isSome then (100000 : ℚ) else 0)
          - (if (findImmediateThreat b cfg.humanPlayer).isSome then (100000 : ℚ) else 0)) ∧
    evaluateBoard cfg b false =
      (3 / 2 : ℚ) * (emptyCellScoreSum b cfg.humanPlayer : ℚ)
        - (emptyCellScoreSum b cfg.aiPlayer : ℚ)
        + ((if (findImmediateThreat b cfg.humanPlayer).isSome then (100000 : ℚ) else 0)
          - (if (findImmediateThreat b cfg.aiPlayer).isSome then (100000 : ℚ) else 0)) := by
  unfold evaluateBoard
  rw [potentialSum_eq, potentialSum_eq]
  by_cases hai : (findImmediateThreat b cfg.aiPlayer).isSome <;>
    by_cases hhum : (findImmediateThreat b cfg.humanPlayer).isSome <;>
      simp only [hai, hhum, if_true, if_false, reduceIte] <;>
        constructor <;> push_cast <;> ring

theorem claimedEvaluate_formula (cfg : AIConfig) (b : Board) :
    claimedEvaluate cfg b true =
      (3 / 2 : ℚ) * (emptyCellScoreSum b cfg.aiPlayer : ℚ)
        - (emptyCellScoreSum b cfg.humanPlayer : ℚ)
        + ((if (immediateWinCell b cfg.aiPlayer).isSome then (100000 : ℚ) else 0)
          - (if (immediateWinCell b cfg.humanPlayer).isSome then (100000 : ℚ) else 0)) := by
  unfold claimedEvaluate
  by_cases hai : (immediateWinCell b cfg.aiPlayer).isSome <;>
    by_cases hhum : (immediateWinCell b cfg.humanPlayer).isSome <;>
      simp only [hai, hhum, if_true, if_false, reduceIte] <;> push_cast <;> ring

/-! ## Entry-point unfoldings -/

theorem findBestMove_not_hard {cfg : AIConfig} (t : Nat → Int) (eb : ExtBoard)
    (h : ¬cfg.difficulty = Difficulty.hard) :
    findBestMove cfg t eb =
      match (alphaBeta cfg cfg.maxDepth (convertToInternalBoard eb)
          XQ.negInf XQ.posInf true).1.bestMove with
      | some mv => some (mv.row, mv.col)
      | none => none := by
  unfold findBestMove
  rw [if_neg h]

theorem findBestMove_hard {cfg : AIConfig} (t : Nat → Int) (eb : ExtBoard)
    (h : cfg.difficulty = Difficulty.hard) :
    findBestMove cfg t eb =
      findBestMoveWithIterativeDeepening cfg t (convertToInternalBoard eb) := by
  unfold findBestMove
  rw [if_pos h]

theorem fBMWID_valid {cfg : AIConfig} {times : Nat → Int} {b : Board} {r co : Nat}
    (h : findBestMoveWithIterativeDeepening cfg times b = some (r, co)) :
    r < 19 ∧ co < 19 ∧ b r co = CellType.EMPTY := by
  unfold findBestMoveWithIterativeDeepening at h
  dsimp only at h
  cases hm : idLoop cfg times b (times 0) (List.range' 1 cfg.maxDepth) XQ.negInf none with
  | none =>
      rw [hm] at h
      simp at h
  | some m =>
      rw [hm] at h
      have hv := idLoop_valid (List.range' 1 cfg.maxDepth) XQ.negInf none
        (fun m0 h0 => by simp at h0) m hm
      simp only [Option.some.injEq, Prod.mk.injEq] at h
      rcases h with ⟨hr, hc⟩
      rw [← hr, ← hc]
      exact hv

theorem fBM_none_iff {cfg : AIConfig} (t : Nat → Int) (eb : ExtBoard)
    (hd : ¬cfg.difficulty = Difficulty.hard) (hpos : 0 < cfg.maxDepth) :
    findBestMove cfg t eb = none ↔
      isGameOver (convertToInternalBoard eb) = true := by
  rw [findBestMove_not_hard t eb hd]
  constructor
  · intro h
    rcases Bool.eq_false_or_eq_true (isGameOver (convertToInternalBoard eb)) with hgo | hgo
    · exact hgo
    · exfalso
      have hsome := @alphaBeta_bm_isSome cfg cfg.maxDepth (convertToInternalBoard eb)
        XQ.negInf XQ.posInf hpos hgo
      rcases Option.isSome_iff_exists.mp hsome with ⟨mv, hmv⟩
      rw [hmv] at h
      simp at h
  · intro hgo
    rw [alphaBeta_bm_none_of_gameOver hgo]

/-- On a game-over board every completed depth yields no best move, so
the iterative-deepening loop carries `none` through to the end. -/
theorem idLoop_none_of_gameOver {cfg : AIConfig} {times : Nat → Int} {b : Board}
    {startTime : Int} (hgo : isGameOver b = true) :
    ∀ (depths : List Nat) (bestScore : XQ),
      idLoop cfg times b startTime depths bestScore none = none := by
  intro depths
  induction depths with
  | nil =>
      intro bestScore
      rfl
  | cons depth rest ih =>
      intro bestScore
      rw [idLoop]
      split
      · rfl
      · dsimp only
        rw [alphaBeta_bm_none_of_gameOver hgo]
        exact ih bestScore

theorem fBMWID_none_of_gameOver {cfg : AIConfig} {times : Nat → Int} {b : Board}
    (hgo : isGameOver b = true) :
    findBestMoveWithIterativeDeepening cfg times b = none := by
  unfold findBestMoveWithIterativeDeepening
  dsimp only
  rw [idLoop_none_of_gameOver hgo]

/-- On a board that is not game over, iterative deepening returns a move
under any wall-clock oracle whose first budget check passes: the depth-1
search completes and its best move is carried to the answer. -/
theorem fBMWID_isSome {c : ExtPlayer} {times : Nat → Int} {b : Board}
    (ht : times 1 - times 0 ≤ 3000) (hgo : isGameOver b = false) :
    (findBestMoveWithIterativeDeepening (mkAI Difficulty.hard c) times b).isSome =
      true := by
  have hsome := @alphaBeta_bm_isSome (mkAI Difficulty.hard c) 1 b XQ.negInf XQ.posInf
    (by decide) hgo
  rcases Option.isSome_iff_exists.mp hsome with ⟨mv, hmv⟩
  unfold findBestMoveWithIterativeDeepening
  dsimp only
  have hrange : List.range' 1 (mkAI Difficulty.hard c).maxDepth = [1, 2, 3, 4, 5] := rfl
  rw [hrange, idLoop, if_neg (not_lt.mpr ht)]
  dsimp only
  rw [hmv]
  dsimp only
  by_cases hsc : XQ.ble (XQ.fin 90000)
      (alphaBeta (mkAI Difficulty.hard c) 1 b XQ.negInf XQ.posInf true).1.score = true
  · rw [if_pos hsc]
    rfl
  · rw [if_neg hsc]
    have hs := @idLoop_isSome (mkAI Difficulty.hard c) times b (times 0) [2, 3, 4, 5]
      (alphaBeta (mkAI Difficulty.hard c) 1 b XQ.negInf XQ.posInf true).1.score
      (some mv) rfl
    rcases Option.isSome_iff_exists.mp hs with ⟨m, hm⟩
    rw [hm]
    rfl

/-- The hard-difficulty entry point returns `None` exactly on game-over
positions, provided the oracle's first budget check passes. -/
theorem fBM_hard_none_iff {c : ExtPlayer} (t : Nat → Int) (eb : ExtBoard)
    (ht : t 1 - t 0 ≤ 3000) :
    findBestMove (mkAI Difficulty.hard c) t eb = none ↔
      isGameOver (convertToInternalBoard eb) = true := by
  rw [findBestMove_hard t eb rfl]
  constructor
  · intro h
    rcases Bool.eq_false_or_eq_true (isGameOver (convertToInternalBoard eb)) with
      hgo | hgo
    · exact hgo
    · exfalso
      have hs := @fBMWID_isSome c t (convertToInternalBoard eb) ht hgo
      rw [h] at hs
      simp at hs
  · intro hgo
    exact fBMWID_none_of_gameOver hgo

/-! ## The claims -/

/-- C1 (corrected): the public entry point `findBestMove` returns `None`
exactly when the position is game over — the board is full **or a
five-in-a-row already exists** — unconditionally on the easy and medium
difficulties, and on hard under any wall-clock oracle whose first
time-budget check passes; it returns `Some` move on every position that
is not game over.  (The original claim, `None` only on a full board,
fails on boards that already contain a win.) -/
theorem C1_amended_none_iff_gameOver :
    ∀ (c : ExtPlayer) (t : Nat → Int) (eb : ExtBoard),
      (findBestMove (mkAI Difficulty.easy c) t eb = none ↔
        isGameOver (convertToInternalBoard eb) = true) ∧
      (findBestMove (mkAI Difficulty.medium c) t eb = none ↔
        isGameOver (convertToInternalBoard eb) = true) ∧
      (t 1 - t 0 ≤ 3000 →
        (findBestMove (mkAI Difficulty.hard c) t eb = none ↔
          isGameOver (convertToInternalBoard eb) = true)) := by
  intro c t eb
  cases c <;>
    exact ⟨fBM_none_iff t eb (by decide) (by decide),
      fBM_none_iff t eb (by decide) (by decide),
      fun ht => fBM_hard_none_iff t eb ht⟩

/-- C1 counterexample: a board with a completed black five on row 0 and
359 empty cells is not full, yet `findBestMove` returns `None`. -/
theorem C1_counterexample_won_board_returns_none :
    findBestMove (mkAI Difficulty.easy ExtPlayer.white) (fun _ => 0) extBoardWonRow = none ∧
    isBoardFull (convertToInternalBoard extBoardWonRow) = false ∧
    convertToInternalBoard extBoardWonRow 0 5 = CellType.EMPTY := by
  refine ⟨?_, by decide, by decide⟩
  decide

/-- C1 witness: the zero-time oracle passes the first budget check, so
the hard-difficulty equivalence applies; the already-won row board is
game over, and the entry point indeed returns `None` on it. -/
theorem C1_amended_none_iff_gameOver_witness :
    ((fun _ : Nat => (0 : Int)) 1 - (fun _ : Nat => (0 : Int)) 0 ≤ 3000) ∧
    (findBestMove (mkAI Difficulty.hard ExtPlayer.white) (fun _ => 0) extBoardWonRow =
        none ↔
      isGameOver (convertToInternalBoard extBoardWonRow) = true) ∧
    isGameOver (convertToInternalBoard extBoardWonRow) = true := by
  have ht : (fun _ : Nat => (0 : Int)) 1 - (fun _ : Nat => (0 : Int)) 0 ≤ 3000 := by
    decide
  exact ⟨ht,
    (C1_amended_none_iff_gameOver ExtPlayer.white (fun _ => 0) extBoardWonRow).2.2 ht,
    by decide⟩

/-- C2 (confirmed): any cell returned by `findImmediateThreat` is empty
on the board; a cell found by pass 1 makes `checkWinAt` true once the
player's stone is placed there, and a cell found by pass 2 creates,
along some axis, a contiguous run of at least 4 stones (including the
placed stone) with at least one open end. -/
theorem C2_immediateThreat_spec :
    ∀ (b : Board) (p : CellType) (rc : Nat × Nat),
      (immediateWinCell b p = some rc →
        b rc.1 rc.2 = CellType.EMPTY ∧
        checkWinAt (setCell b rc.1 rc.2 p) p rc.1 rc.2 = true) ∧
      (immediateWinCell b p = none → criticalFourCell b p = some rc →
        b rc.1 rc.2 = CellType.EMPTY ∧
        ∃ d ∈ dirList,
          4 ≤ dirRunCount (setCell b rc.1 rc.2 p) p rc.1 rc.2 d.1 d.2 ∧
          (dirOpenNeg (setCell b rc.1 rc.2 p) p rc.1 rc.2 d.1 d.2 = true ∨
            dirOpenPos (setCell b rc.1 rc.2 p) p rc.1 rc.2 d.1 d.2 = true)) ∧
      (findImmediateThreat b p = some rc → b rc.1 rc.2 = CellType.EMPTY) := by
  intro b p rc
  refine ⟨?_, ?_, ?_⟩
  · intro h
    have hs := immediateWinCell_spec h
    exact ⟨hs.2.2.1, hs.2.2.2⟩
  · intro _ h
    have hs := criticalFourCell_spec h
    exact ⟨hs.2.2.1, checkCriticalFourThreat_exists hs.2.2.2⟩
  · intro h
    exact (findImmediateThreat_some h).2.2

/-- C2 witness: pass 1 fires at `(0,0)` on the four-in-a-row board, and
pass 2 fires at `(9,7)` on the open-three board where pass 1 finds
nothing. -/
theorem C2_immediateThreat_spec_witness :
    (immediateWinCell boardFourRow CellType.BLACK = some (0, 0) ∧
      boardFourRow 0 0 = CellType.EMPTY ∧
      checkWinAt (setCell boardFourRow 0 0 CellType.BLACK) CellType.BLACK 0 0 = true) ∧
    (immediateWinCell boardOpenThree CellType.BLACK = none ∧
      criticalFourCell boardOpenThree CellType.BLACK = some (9, 7) ∧
      boardOpenThree 9 7 = CellType.EMPTY ∧
      ∃ d ∈ dirList,
        4 ≤ dirRunCount (setCell boardOpenThree 9 7 CellType.BLACK)
          CellType.BLACK 9 7 d.1 d.2 ∧
        (dirOpenNeg (setCell boardOpenThree 9 7 CellType.BLACK)
            CellType.BLACK 9 7 d.1 d.2 = true ∨
          dirOpenPos (setCell boardOpenThree 9 7 CellType.BLACK)
            CellType.BLACK 9 7 d.1 d.2 = true)) := by
  have hw : immediateWinCell boardFourRow CellType.BLACK = some (0, 0) := by decide
  have h1 : immediateWinCell boardOpenThree CellType.BLACK = none := by decide
  have h2 : criticalFourCell boardOpenThree CellType.BLACK = some (9, 7) := by decide
  have hc1 := (C2_immediateThreat_spec boardFourRow CellType.BLACK (0, 0)).1 hw
  have hc2 := (C2_immediateThreat_spec boardOpenThree CellType.BLACK (9, 7)).2.1 h1 h2
  exact ⟨⟨hw, hc1⟩, ⟨h1, h2, hc2⟩⟩

/-- C3 (confirmed): the board handed to `alphaBeta` is identical
cell-for-cell before and after the call for every depth, window and
side: each place is paired with a remove that restores `EMPTY`, also on
iterations cut short by the pruning break. -/
theorem C3_board_restored :
    ∀ (cfg : AIConfig) (d : Nat) (b : Board) (alpha beta : XQ) (isMax : Bool),
      (alphaBeta cfg d b alpha beta isMax).2 = b :=
  fun cfg => alphaBeta_board cfg

/-- C5 (corrected): the classifier equals the claimed priority chain
with the NearEnemy condition amended from "exactly one side closed" to
"at least one side closed (zero holes on that side)". -/
theorem C5_amended_priority_chain :
    ∀ (row : List CellType) (player : CellType),
      calculateThreatInOneDimension row player = amendedClassify row player :=
  classify_eq_amendedChain

/-- C5 counterexample: a window whose centre is flanked by enemy stones
on both immediate sides has both hole counts zero, so no side is
"exactly one closed"; the claimed chain returns Nothing while the code
returns NearEnemy. -/
theorem C5_counterexample_both_sides_closed :
    calculateThreatInOneDimension windowBothEnemies CellType.BLACK =
      ThreatType.THREAT_NEAR_ENEMY ∧
    claimedClassify windowBothEnemies CellType.BLACK = ThreatType.THREAT_NOTHING := by
  decide

/-- C6 (confirmed): at the full window the alpha-beta search returns
exactly the same evaluation result — score and best move — as the
identical recursion with the pruning break removed, over the same
move-generator candidate lists, for every board, depth and side. -/
theorem C6_alphaBeta_eq_minimax :
    ∀ (cfg : AIConfig) (d : Nat) (b : Board) (isMax : Bool),
      alphaBeta cfg d b XQ.negInf XQ.posInf isMax = minimax cfg d b isMax :=
  fun cfg => alphaBeta_eq_minimax cfg

/-- C7 (corrected): the evaluator returns `1.5·own − opp ± bonus` from
the side to move's perspective, but the ±100000 tactical bonus fires for
any side with an immediate threat found by `findImmediateThreat` — a
one-move win **or a critical four** — not only for a one-move win as the
claim states. -/
theorem C7_amended_evaluator_formula :
    ∀ (cfg : AIConfig) (b : Board),
      evaluateBoard cfg b true =
        (3 / 2 : ℚ) * (emptyCellScoreSum b cfg.aiPlayer : ℚ)
          - (emptyCellScoreSum b cfg.humanPlayer : ℚ)
          + ((if (findImmediateThreat b cfg.aiPlayer).isSome then (100000 : ℚ) else 0)
            - (if (findImmediateThreat b cfg.humanPlayer).isSome then (100000 : ℚ) else 0)) ∧
      evaluateBoard cfg b false =
        (3 / 2 : ℚ) * (emptyCellScoreSum b cfg.humanPlayer : ℚ)
          - (emptyCellScoreSum b cfg.aiPlayer : ℚ)
          + ((if (findImmediateThreat b cfg.humanPlayer).isSome then (100000 : ℚ) else 0)
            - (if (findImmediateThreat b cfg.aiPlayer).isSome then (100000 : ℚ) else 0)) :=
  fun cfg b => evaluateBoard_formula cfg b

/-- C7 counterexample: on the open-three board the human side has a
critical-four cell but no one-move win, so the code's evaluator differs
from the claimed evaluator (whose bonus requires a one-move win) by the
100000 bonus. -/
theorem C7_counterexample_critical_four_bonus :
    evaluateBoard (mkAI Difficulty.hard ExtPlayer.white) boardOpenThree true ≠
      claimedEvaluate (mkAI Difficulty.hard ExtPlayer.white) boardOpenThree true := by
  have hfh : (findImmediateThreat boardOpenThree
      (mkAI Difficulty.hard ExtPlayer.white).humanPlayer).isSome = true := by decide
  have hfa : (findImmediateThreat boardOpenThree
      (mkAI Difficulty.hard ExtPlayer.white).aiPlayer).isSome = false := by decide
  have hwh : (immediateWinCell boardOpenThree
      (mkAI Difficulty.hard ExtPlayer.white).humanPlayer).isSome = false := by decide
  have hwa : (immediateWinCell boardOpenThree
      (mkAI Difficulty.hard ExtPlayer.white).aiPlayer).isSome = false := by decide
  have he := (evaluateBoard_formula (mkAI Difficulty.hard ExtPlayer.white) boardOpenThree).1
  have hc := claimedEvaluate_formula (mkAI Difficulty.hard ExtPlayer.white) boardOpenThree
  rw [he, hc, hfh, hfa, hwh, hwa]
  simp only [if_true, Bool.false_eq_true, reduceIte]
  intro heq
  have h100 : (100000 : ℚ) = 0 := by linarith
  norm_num at h100

/-- C10 (confirmed): when neither side has an immediate threat, the
turn-aware evaluator at a maximizing node returns exactly the simple
additive evaluator of the superseded frontend variant. -/
theorem C10_turn_aware_eq_simple :
    ∀ (cfg : AIConfig) (b : Board),
      findImmediateThreat b cfg.aiPlayer = none →
      findImmediateThreat b cfg.humanPlayer = none →
      evaluateBoard cfg b true = evaluateBoardSimple cfg b := by
  intro cfg b hai hhum
  unfold evaluateBoard evaluateBoardSimple
  rw [hai, hhum]
  simp only [Option.isSome_none, Bool.false_eq_true, reduceIte, if_true]
  push_cast
  ring

/-- C10 witness: on the all-empty board neither side has an immediate
threat, and the two evaluators agree. -/
theorem C10_turn_aware_eq_simple_witness :
    findImmediateThreat boardEmptyAll
        (mkAI Difficulty.medium ExtPlayer.white).aiPlayer = none ∧
    findImmediateThreat boardEmptyAll
        (mkAI Difficulty.medium ExtPlayer.white).humanPlayer = none ∧
    evaluateBoard (mkAI Difficulty.medium ExtPlayer.white) boardEmptyAll true =
      evaluateBoardSimple (mkAI Difficulty.medium ExtPlayer.white) boardEmptyAll := by
  have h1 : findImmediateThreat boardEmptyAll
      (mkAI Difficulty.medium ExtPlayer.white).aiPlayer = none := by decide
  have h2 : findImmediateThreat boardEmptyAll
      (mkAI Difficulty.medium ExtPlayer.white).humanPlayer = none := by decide
  exact ⟨h1, h2,
    C10_turn_aware_eq_simple (mkAI Difficulty.medium ExtPlayer.white) boardEmptyAll h1 h2⟩

attribute [local semireducible] Rat.mul Rat.add Rat.sub Rat.inv

set_option maxRecDepth 1000000

/-- C4 (corrected): on a non-empty board the human immediate-threat cell
is injected with fixed score 200000 and the AI cell with the higher
fixed score 300000; the returned list is the stable descending sort of
the candidate list truncated to 20; and an injected move is guaranteed
to survive the cap whenever at most 20 candidates score at least as much
as it.  Ordinary heuristic candidates can out-rank the injections and
can push the human injection past the cap, so neither the claimed
out-ranking nor unconditional retention holds. -/
theorem C4_amended_injection_and_cap :
    ∀ (cfg : AIConfig) (b : Board), isBoardEmpty b = false →
      (∀ p : Nat × Nat, findImmediateThreat b cfg.humanPlayer = some p →
        Move.mk p.1 p.2 (XQ.fin 200000) ∈ movesPre cfg b) ∧
      (∀ p : Nat × Nat, findImmediateThreat b cfg.aiPlayer = some p →
        Move.mk p.1 p.2 (XQ.fin 300000) ∈ movesPre cfg b) ∧
      generateMoves cfg b = (sortDesc (movesPre cfg b)).take 20 ∧
      (∀ mv ∈ movesPre cfg b,
        (movesPre cfg b).countP (fun x => XQ.ble mv.score x.score) ≤ 20 →
        mv ∈ generateMoves cfg b) := by
  intro cfg b hne
  have hnc : ¬(b (BOARD_SIZE / 2) (BOARD_SIZE / 2) = CellType.EMPTY ∧
      isBoardEmpty b = true) := by
    rintro ⟨_, h2⟩
    rw [hne] at h2
    cases h2
  exact ⟨fun p hp => injected_human_mem_movesPre hp,
    fun p hp => injected_ai_mem_movesPre hp,
    generateMoves_eq_of_not_center hnc,
    fun mv hm hc => generateMoves_retention hnc hm hc⟩

/-- C4 counterexample: on the double-cross board the human threat
`(4,14)` is injected at 200000 yet the ordinary candidate `(4,9)` scores
strictly above 200000, so the human injection does not out-rank every
ordinary heuristic candidate; and on the eviction board the human threat
`(9,4)` is found and injected, yet at least twenty other candidates
score strictly above 200000, so the injected move is pushed past the
20-move cap and is absent from the returned list — injected moves are
not retained regardless of rank. -/
theorem C4_counterexample_outrank_and_eviction :
    (findImmediateThreat boardDoubleCross
        (mkAI Difficulty.hard ExtPlayer.white).humanPlayer = some (4, 14) ∧
      (generateMoves (mkAI Difficulty.hard ExtPlayer.white) boardDoubleCross).any
        (fun mv => mv.row = 4 ∧ mv.col = 9 ∧ XQ.blt (XQ.fin 200000) mv.score) = true) ∧
    (findImmediateThreat boardEvict
        (mkAI Difficulty.hard ExtPlayer.white).humanPlayer = some (9, 4) ∧
      (generateMoves (mkAI Difficulty.hard ExtPlayer.white) boardEvict).all
        (fun mv => ¬(mv.row = 9 ∧ mv.col = 4)) = true) := by
  refine ⟨⟨by decide, ?_⟩, ⟨by decide, ?_⟩⟩
  · decide
  · decide

/-- C4 witness: the double-cross board is non-empty, both threats are
found and injected with their fixed scores, and the returned list is the
sorted, capped candidate list. -/
theorem C4_amended_injection_and_cap_witness :
    isBoardEmpty boardDoubleCross = false ∧
    Move.mk 4 14 (XQ.fin 200000) ∈
      movesPre (mkAI Difficulty.hard ExtPlayer.white) boardDoubleCross ∧
    Move.mk 4 4 (XQ.fin 300000) ∈
      movesPre (mkAI Difficulty.hard ExtPlayer.white) boardDoubleCross ∧
    generateMoves (mkAI Difficulty.hard ExtPlayer.white) boardDoubleCross =
      (sortDesc (movesPre (mkAI Difficulty.hard ExtPlayer.white) boardDoubleCross)).take
        20 := by
  have hne : isBoardEmpty boardDoubleCross = false := by decide
  have hh : findImmediateThreat boardDoubleCross
      (mkAI Difficulty.hard ExtPlayer.white).humanPlayer = some (4, 14) := by decide
  have ha : findImmediateThreat boardDoubleCross
      (mkAI Difficulty.hard ExtPlayer.white).aiPlayer = some (4, 4) := by decide
  have hc := C4_amended_injection_and_cap (mkAI Difficulty.hard ExtPlayer.white)
    boardDoubleCross hne
  exact ⟨hne, hc.1 (4, 14) hh, hc.2.1 (4, 4) ha, hc.2.2.1⟩

/-- C8 (confirmed): whenever the first time check passes and the depth-1
search yields a best move, iterative deepening returns a non-`None`
move naming an empty in-bounds cell, for every wall-clock oracle:
exhausting the budget only stops deepening and the last completed
depth's answer is kept. -/
theorem C8_iterative_deepening_anytime :
    ∀ (c : ExtPlayer) (times : Nat → Int) (b : Board) (mv : Move),
      times 1 - times 0 ≤ 3000 →
      (alphaBeta (mkAI Difficulty.hard c) 1 b XQ.negInf XQ.posInf true).1.bestMove =
        some mv →
      ∃ r co, findBestMoveWithIterativeDeepening (mkAI Difficulty.hard c) times b =
          some (r, co) ∧ r < 19 ∧ co < 19 ∧ b r co = CellType.EMPTY := by
  intro c times b mv ht hbm
  unfold findBestMoveWithIterativeDeepening
  dsimp only
  have hrange : List.range' 1 (mkAI Difficulty.hard c).maxDepth = [1, 2, 3, 4, 5] := rfl
  rw [hrange, idLoop]
  rw [if_neg (not_lt.mpr ht)]
  dsimp only
  rw [hbm]
  dsimp only
  by_cases hsc : XQ.ble (XQ.fin 90000)
      (alphaBeta (mkAI Difficulty.hard c) 1 b XQ.negInf XQ.posInf true).1.score = true
  · rw [if_pos hsc]
    exact ⟨mv.row, mv.col, rfl, alphaBeta_bm_valid hbm⟩
  · rw [if_neg hsc]
    have hs := @idLoop_isSome (mkAI Difficulty.hard c) times b (times 0) [2, 3, 4, 5]
      (alphaBeta (mkAI Difficulty.hard c) 1 b XQ.negInf XQ.posInf true).1.score
      (some mv) rfl
    rcases Option.isSome_iff_exists.mp hs with ⟨m, hm⟩
    have hv := @idLoop_valid (mkAI Difficulty.hard c) times b (times 0) [2, 3, 4, 5]
      (alphaBeta (mkAI Difficulty.hard c) 1 b XQ.negInf XQ.posInf true).1.score
      (some mv)
      (fun m0 h0 => by
        injection h0 with h0
        rw [← h0]
        exact alphaBeta_bm_valid hbm) m hm
    rw [hm]
    exact ⟨m.row, m.col, rfl, hv⟩

/-- C8 witness: on the near-full board (a single empty cell at the
origin) the depth-1 search completes and iterative deepening, under an
oracle that times out before depth 2, returns that cell. -/
theorem C8_iterative_deepening_anytime_witness :
    timesDepthOne 1 - timesDepthOne 0 ≤ 3000 ∧
    (alphaBeta (mkAI Difficulty.hard ExtPlayer.white) 1 boardNearFull
      XQ.negInf XQ.posInf true).1.bestMove = some (Move.mk 0 0 (XQ.fin 0)) ∧
    (∃ r co, findBestMoveWithIterativeDeepening (mkAI Difficulty.hard ExtPlayer.white)
        timesDepthOne boardNearFull = some (r, co) ∧
      r < 19 ∧ co < 19 ∧ boardNearFull r co = CellType.EMPTY) := by
  have h1 : timesDepthOne 1 - timesDepthOne 0 ≤ 3000 := by decide
  have h2 : (alphaBeta (mkAI Difficulty.hard ExtPlayer.white) 1 boardNearFull
      XQ.negInf XQ.posInf true).1.bestMove = some (Move.mk 0 0 (XQ.fin 0)) := by decide
  exact ⟨h1, h2, C8_iterative_deepening_anytime ExtPlayer.white timesDepthOne
    boardNearFull (Move.mk 0 0 (XQ.fin 0)) h1 h2⟩

/-- C9 (corrected): every generated move names an in-bounds empty cell
and at most 20 moves are returned; the list is duplicate-free except
that when both sides' injected immediate-threat cells coincide the
shared cell appears twice (the code pushes both injections without
de-duplication); and `findBestMove`, whenever it returns a move, names
an in-bounds empty cell of the input board. -/
theorem C9_amended_generated_moves_valid :
    (∀ (cfg : AIConfig) (b : Board),
      (generateMoves cfg b).length ≤ 20 ∧
      (∀ mv ∈ generateMoves cfg b,
        mv.row < 19 ∧ mv.col < 19 ∧ b mv.row mv.col = CellType.EMPTY) ∧
      ((∀ p : Nat × Nat, ¬(findImmediateThreat b cfg.humanPlayer = some p ∧
          findImmediateThreat b cfg.aiPlayer = some p)) →
        (generateMoves cfg b).Pairwise coordNe)) ∧
    (∀ (cfg : AIConfig) (t : Nat → Int) (eb : ExtBoard) (r co : Nat),
      findBestMove cfg t eb = some (r, co) →
      r < 19 ∧ co < 19 ∧ convertToInternalBoard eb r co = CellType.EMPTY) := by
  constructor
  · intro cfg b
    exact ⟨generateMoves_length_le, generateMoves_mem_prop,
      fun h => generateMoves_pairwise h⟩
  · intro cfg t eb r co h
    by_cases hd : cfg.difficulty = Difficulty.hard
    · rw [findBestMove_hard t eb hd] at h
      exact fBMWID_valid h
    · rw [findBestMove_not_hard t eb hd] at h
      cases habm : (alphaBeta cfg cfg.maxDepth (convertToInternalBoard eb)
          XQ.negInf XQ.posInf true).1.bestMove with
      | none =>
          rw [habm] at h
          simp at h
      | some mv =>
          rw [habm] at h
          simp only [Option.some.injEq, Prod.mk.injEq] at h
          rcases h with ⟨hr, hc⟩
          rw [← hr, ← hc]
          exact alphaBeta_bm_valid habm

/-- C9 counterexample: when the human win cell and the AI win cell are
the same `(4,4)`, the generated list contains that cell twice. -/
theorem C9_counterexample_duplicate_injected_cell :
    findImmediateThreat boardSharedThreat
      (mkAI Difficulty.hard ExtPlayer.white).humanPlayer = some (4, 4) ∧
    findImmediateThreat boardSharedThreat
      (mkAI Difficulty.hard ExtPlayer.white).aiPlayer = some (4, 4) ∧
    ¬ (generateMoves (mkAI Difficulty.hard ExtPlayer.white)
        boardSharedThreat).Pairwise coordNe := by
  refine ⟨by decide, by decide, ?_⟩
  decide

/-- C9 witness: on the near-full board the two threat cells do not
coincide (both are absent), the generated moves are duplicate-free, and
the returned move `(0,0)` is an empty in-bounds cell. -/
theorem C9_amended_generated_moves_valid_witness :
    findImmediateThreat boardNearFull
      (mkAI Difficulty.hard ExtPlayer.white).humanPlayer = none ∧
    (generateMoves (mkAI Difficulty.hard ExtPlayer.white) boardNearFull).Pairwise coordNe ∧
    findBestMove (mkAI Difficulty.hard ExtPlayer.white) timesDepthOne
      extBoardNearFull = some (0, 0) ∧
    convertToInternalBoard extBoardNearFull 0 0 = CellType.EMPTY := by
  have hnone : findImmediateThreat boardNearFull
      (mkAI Difficulty.hard ExtPlayer.white).humanPlayer = none := by decide
  have hp : ∀ p : Nat × Nat, ¬(findImmediateThreat boardNearFull
      (mkAI Difficulty.hard ExtPlayer.white).humanPlayer = some p ∧
      findImmediateThreat boardNearFull
        (mkAI Difficulty.hard ExtPlayer.white).aiPlayer = some p) := by
    intro p hpq
    rw [hnone] at hpq
    cases hpq.1
  have hfb : findBestMove (mkAI Difficulty.hard ExtPlayer.white) timesDepthOne
      extBoardNearFull = some (0, 0) := by decide
  refine ⟨hnone, ?_, hfb, ?_⟩
  · exact (C9_amended_generated_moves_valid.1 (mkAI Difficulty.hard ExtPlayer.white)
      boardNearFull).2.2 hp
  · exact (C9_amended_generated_moves_valid.2 (mkAI Difficulty.hard ExtPlayer.white)
      timesDepthOne extBoardNearFull 0 0 hfb).2.2
